import Mathlib

/-!
Verification of the conoxy sidecar proxy reconciliation engine.

The Go source (a Consul Connect sidecar) keeps two maps inside `Proxy`:
`services : map[string]*connect.Service` (keyed by proxied service name) and
`proxyStates : map[string]*proxyState` (keyed by service instance id).  The
loop in `Proxy.Serve` receives configuration snapshots, provisions every
instance of the snapshot via `runServiceProxy` and then decommissions every
instance and service no longer present via `removeNotPresent`.

Go maps are embedded as association lists `List (String × α)`; Go map reads,
writes and deletes become `lookupA`, `insertOver` and `eraseA`.  External
collaborators (`connect.Service`, `proxy.Listener`) are opaque: a service
handle is `Option Unit` (`none` is the nil pointer produced when
`cfg.Service` returns an error), a listener is identified by the instance
and role that created it (`ListenerId`).  Side effects (log-worthy calls:
listener starts and closes, service creations and closes, provisions,
decommissions, and Go runtime faults such as nil dereferences or closing a
closed channel) are recorded as an `Event` trace.  Goroutines spawned by
`runServiceProxy` (the public-listener starter) are kept in a `pending`
list and run by an explicit scheduler action; the stop-watcher goroutines
spawned by `startListener` are kept in a `watchers` list and fire once the
stop channel is closed.
-/

namespace Conoxy

/-- Association list key collection, mirroring the key set of a Go map. -/
def keysOf {α : Type} (m : List (String × α)) : List String :=
  m.map Prod.fst

/-- Association list lookup, mirroring `v, ok := m[k]` on a Go map. -/
def lookupA {α : Type} : List (String × α) → String → Option α
  | [], _ => none
  | (k2, v) :: rest, k => if k2 = k then some v else lookupA rest k

/-- Association list write, mirroring `m[k] = v` on a Go map: overwrite the
entry when the key is present, append it otherwise. -/
def insertOver {α : Type} : List (String × α) → String → α → List (String × α)
  | [], k, v => [(k, v)]
  | kv :: rest, k, v =>
    if kv.1 = k then (k, v) :: rest else kv :: insertOver rest k v

/-- Association list removal, mirroring `delete(m, k)` on a Go map. -/
def eraseA {α : Type} : List (String × α) → String → List (String × α)
  | [], _ => []
  | kv :: rest, k =>
    if kv.1 = k then eraseA rest k else kv :: eraseA rest k

/-- In-place update of the record stored under a key, mirroring a Go write
through the pointer stored in the map (`m[k].field = v`) when the key is
known to be present; absent keys are handled by the callers. -/
def withState {α : Type} : List (String × α) → String → (α → α) → List (String × α)
  | [], _, _ => []
  | kv :: rest, k, f =>
    if kv.1 = k then (kv.1, f kv.2) :: withState rest k f
    else kv :: withState rest k f

/-- Identity of a listener: the public listener of an instance, or the
upstream listener of an instance for one upstream key (`uc.String()`). -/
inductive ListenerId : Type
  | publicL (instId : String)
  | upstreamL (instId : String) (key : String)
  deriving DecidableEq

/-- Observable effects of the engine, in program order. `fault` marks a Go
runtime fault (nil dereference, close of a closed channel). -/
inductive Event : Type
  | provision (id : String)
  | decommission (id : String)
  | serviceCreate (name : String)
  | serviceCreateFailed (name : String)
  | serviceClose (name : String)
  | listenerStart (l : ListenerId)
  | listenerClose (l : ListenerId)
  | startListenerErrLog (name : String)
  | fault (msg : String)
  deriving DecidableEq

/-- The parts of `proxy.Config` the engine reads: the proxied service name,
the upstream keys (`uc.String()` for each configured upstream), and whether
`cfg.Service(client, logger)` fails for this configuration (behaviour of the
external collaborator, carried as data). -/
structure ProxyConfig : Type where
  proxiedServiceName : String
  upstreams : List String
  serviceCreateFails : Bool
  deriving DecidableEq

/-- Go `proxyState`: the config an instance was started with, the public
listener once its asynchronous start recorded it, and the upstream
listeners keyed by upstream key. -/
structure proxyState : Type where
  config : ProxyConfig
  listener : Option ListenerId
  upstreams : List (String × ListenerId)
  deriving DecidableEq

/-- Go `Proxy`: the stop channel (`stopClosed` is true once `close(stopChan)`
ran), the service-handle registry, the runtime-state map, the stop-watcher
goroutines registered by `startListener` (one per started listener, each
closes its listener when the stop channel closes), and the spawned but not
yet executed public-listener goroutines (instance ids). -/
structure Proxy : Type where
  stopClosed : Bool
  services : List (String × Option Unit)
  proxyStates : List (String × proxyState)
  watchers : List ListenerId
  pending : List String
  deriving DecidableEq

/-- `New`: fresh proxy with empty maps and an open stop channel. -/
def initialProxy : Proxy :=
  { stopClosed := false, services := [], proxyStates := [], watchers := [],
    pending := [] }

/-- `waitSVC`: `ch := svc.ReadyWait()` dereferences the handle — a
nil-receiver fault when the handle is the nil pointer stored after a failed
`cfg.Service`; with a real handle the function blocks on the ready channel,
which has no control-plane effect. -/
def waitSVC : Option Unit → List Event
  | none => [Event.fault "nil service dereference"]
  | some _ => []

/-- The one-time TLS identity block of `runServiceProxy` after the
readiness wait: `svc.ServerTLSConfig()` and the certificate and root
accessors dereference the handle — a nil-receiver fault when the handle is
nil; with a real handle they only read collaborator state and log. -/
def tlsIdentityInfo : Option Unit → List Event
  | none => [Event.fault "nil service TLS config"]
  | some _ => []

/-- `Proxy.startListener`: logs the start, spawns the serving goroutine
(external byte proxying, not modelled), spawns the stop-watcher goroutine
(recorded in `watchers`), and returns `nil`. -/
def Proxy.startListener (p : Proxy) (_name : String) (l : ListenerId) :
    Proxy × List Event × Option String :=
  ({ p with watchers := p.watchers ++ [l] }, [Event.listenerStart l], none)

/-- The upstream loop at the end of `runServiceProxy`: for every upstream
key, build the upstream listener, start it (logging on a non-nil error) and
record it under its key in this instance's runtime state. -/
def startUpstreams (p : Proxy) (id : String) : List String → Proxy × List Event
  | [] => (p, [])
  | uc :: rest =>
    let l := ListenerId.upstreamL id uc
    let r := p.startListener uc l
    let evsLog : List Event :=
      match r.2.2 with
      | some _ => [Event.startListenerErrLog uc]
      | none => []
    let newStates :=
      withState r.1.proxyStates id
        (fun st => { st with upstreams := insertOver st.upstreams uc l })
    let p2 : Proxy := { r.1 with proxyStates := newStates }
    let rRest := startUpstreams p2 id rest
    (rRest.1, r.2.1 ++ evsLog ++ rRest.2)

/-- `Proxy.runServiceProxy`: provision one instance.  Returns untouched when
a runtime state already exists for the id; otherwise creates the runtime
state, resolves (creating on first reference, even when creation fails and
the stored handle is nil) the shared service handle — running, on first
reference, the one-time readiness wait and TLS identity block on the
freshly stored handle, which dereferences a nil handle — then spawns the
public-listener goroutine, and synchronously starts the upstream
listeners. -/
def Proxy.runServiceProxy (p : Proxy) (id : String) (cfg : ProxyConfig) :
    Proxy × List Event :=
  if (lookupA p.proxyStates id).isSome then (p, [])
  else
    let emptyState : proxyState :=
      { config := cfg, listener := none, upstreams := [] }
    let p1 : Proxy :=
      { p with proxyStates := insertOver p.proxyStates id emptyState }
    let createNow : Bool := (lookupA p1.services cfg.proxiedServiceName).isNone
    let svc : Option Unit := if cfg.serviceCreateFails then none else some ()
    let p2 : Proxy :=
      { p1 with services :=
          if createNow then insertOver p1.services cfg.proxiedServiceName svc
          else p1.services }
    let evs2 : List Event :=
      if createNow then
        Event.serviceCreate cfg.proxiedServiceName ::
          ((if cfg.serviceCreateFails then
            [Event.serviceCreateFailed cfg.proxiedServiceName]
          else []) ++ waitSVC svc ++ tlsIdentityInfo svc)
      else []
    let p3 : Proxy := { p2 with pending := p2.pending ++ [id] }
    let r := startUpstreams p3 id cfg.upstreams
    (r.1, Event.provision id :: (evs2 ++ r.2))

/-- Body of the public-listener goroutine spawned by `runServiceProxy`:
wait for readiness, build and start the public listener, then write it back
through `p.proxyStates[id].listener = l` — a nil dereference (fault) when
the instance was decommissioned before the goroutine ran. -/
def Proxy.runBgPublic (p : Proxy) (id : String) : Proxy × List Event :=
  let l := ListenerId.publicL id
  let r := p.startListener "public listener" l
  let evsLog : List Event :=
    match r.2.2 with
    | some _ => [Event.startListenerErrLog "public listener"]
    | none => []
  match lookupA r.1.proxyStates id with
  | some st =>
    let newStates := insertOver r.1.proxyStates id { st with listener := some l }
    ({ r.1 with proxyStates := newStates }, r.2.1 ++ evsLog)
  | none => (r.1, r.2.1 ++ evsLog ++ [Event.fault "nil proxyState write"])

/-- `Proxy.removedProxies`: copy of the runtime-state map with every key of
the new snapshot deleted. -/
def Proxy.removedProxies (p : Proxy) (new : List (String × ProxyConfig)) :
    List (String × proxyState) :=
  new.foldl (fun sc kv => eraseA sc kv.1) p.proxyStates

/-- `Proxy.removedServices`: copy of the service-handle registry with every
service name referenced by the new snapshot deleted. -/
def Proxy.removedServices (p : Proxy) (new : List (String × ProxyConfig)) :
    List (String × Option Unit) :=
  new.foldl (fun sc kv => eraseA sc kv.2.proxiedServiceName) p.services

/-- `state.listener.Close()` in `removeNotPresent`: the call is unguarded in
the source, so a missing public listener is a nil dereference. -/
def closeRecordedListener : Option ListenerId → List Event
  | some l => [Event.listenerClose l]
  | none => [Event.fault "nil listener close"]

/-- First loop of `removeNotPresent`: for every removed instance, close its
public listener (unconditionally), close its upstream listeners, and delete
its runtime state. -/
def decommissionPhase (p : Proxy) :
    List (String × proxyState) → Proxy × List Event
  | [] => (p, [])
  | (id, st) :: rest =>
    let evs := closeRecordedListener st.listener
      ++ st.upstreams.map (fun kv => Event.listenerClose kv.2)
      ++ [Event.decommission id]
    let p1 : Proxy := { p with proxyStates := eraseA p.proxyStates id }
    let rRest := decommissionPhase p1 rest
    (rRest.1, evs ++ rRest.2)

/-- Second loop of `removeNotPresent`: close every service handle whose name
is no longer referenced and delete it from the registry. -/
def serviceClosePhase (p : Proxy) :
    List (String × Option Unit) → Proxy × List Event
  | [] => (p, [])
  | (name, _svc) :: rest =>
    let p1 : Proxy := { p with services := eraseA p.services name }
    let rRest := serviceClosePhase p1 rest
    (rRest.1, Event.serviceClose name :: rRest.2)

/-- `Proxy.removeNotPresent`: decommission every instance absent from the
new snapshot, then close and remove every service handle no longer
referenced by the new snapshot. -/
def Proxy.removeNotPresent (p : Proxy) (new : List (String × ProxyConfig)) :
    Proxy × List Event :=
  let r1 := decommissionPhase p (p.removedProxies new)
  let r2 := serviceClosePhase r1.1 (r1.1.removedServices new)
  (r2.1, r1.2 ++ r2.2)

/-- The provisioning loop of `Serve`:
`for id, config := range cfg.proxyConfigs { p.runServiceProxy(id, config) }`. -/
def provisionPhase (p : Proxy) :
    List (String × ProxyConfig) → Proxy × List Event
  | [] => (p, [])
  | (id, cfg) :: rest =>
    let r1 := p.runServiceProxy id cfg
    let rRest := provisionPhase r1.1 rest
    (rRest.1, r1.2 ++ rRest.2)

/-- One snapshot application: the body of the config case of `Serve` —
provision everything in the snapshot, then remove what is not present. -/
def Proxy.applySnapshot (p : Proxy) (cfg : List (String × ProxyConfig)) :
    Proxy × List Event :=
  let r1 := provisionPhase p cfg
  let r2 := r1.1.removeNotPresent cfg
  (r2.1, r1.2 ++ r2.2)

/-- `Proxy.Close`: `close(p.stopChan)` (a fault when the channel is already
closed — the call is unguarded) and close every registered service
handle. -/
def Proxy.Close (p : Proxy) : Proxy × List Event :=
  let chanEvs : List Event :=
    if p.stopClosed then [Event.fault "close of closed channel"] else []
  ({ p with stopClosed := true },
    chanEvs ++ p.services.map (fun kv => Event.serviceClose kv.1))

/-- Service names referenced by a snapshot (`v.ProxiedServiceName` over its
values). -/
def referencedNames (s : List (String × ProxyConfig)) : List String :=
  s.map (fun kv => kv.2.proxiedServiceName)

/-- Scheduler actions of an execution: deliver a snapshot to the loop, run a
spawned public-listener goroutine, or invoke `Close`. -/
inductive Action : Type
  | snapshot (cfg : List (String × ProxyConfig))
  | runBg (id : String)
  | stop
  deriving DecidableEq

/-- Effect of one action before the stop-watchers react. -/
def rawStep (p : Proxy) : Action → Proxy × List Event
  | Action.snapshot cfg => p.applySnapshot cfg
  | Action.runBg id =>
    if id ∈ p.pending then
      Proxy.runBgPublic { p with pending := p.pending.erase id } id
    else (p, [])
  | Action.stop => p.Close

/-- One step of an execution: the action, then — once the stop channel is
closed — every registered stop-watcher observes it and closes its
listener. -/
def step (p : Proxy) (a : Action) : Proxy × List Event :=
  let r := rawStep p a
  if r.1.stopClosed then
    ({ r.1 with watchers := [] },
      r.2 ++ r.1.watchers.map Event.listenerClose)
  else r

/-- An execution: a sequence of steps from a proxy state, with the
concatenated event trace. -/
def exec (p : Proxy) : List Action → Proxy × List Event
  | [] => (p, [])
  | a :: rest =>
    let r1 := step p a
    let rRest := exec r1.1 rest
    (rRest.1, r1.2 ++ rRest.2)

/-- Inputs consumed by the `select` in `Serve`: a config from the watcher
channel, or the stop channel closing. -/
inductive ServeInput : Type
  | config (cfg : List (String × ProxyConfig))
  | stopSignal
  deriving DecidableEq

/-- `Proxy.Serve`: the reconciliation loop over a finite prefix of inputs.
The boolean records whether the loop returned (it returns only on the stop
signal; with no further input it is still blocked in the select). -/
def Proxy.Serve (p : Proxy) : List ServeInput → Proxy × List Event × Bool
  | [] => (p, [], false)
  | ServeInput.config cfg :: rest =>
    let r1 := p.applySnapshot cfg
    let rRest := Proxy.Serve r1.1 rest
    (rRest.1, r1.2 ++ rRest.2.1, rRest.2.2)
  | ServeInput.stopSignal :: _rest => (p, [], true)

/-- Apply a sequence of snapshots in order from a given state. -/
def applyAllFrom (p : Proxy) :
    List (List (String × ProxyConfig)) → Proxy × List Event
  | [] => (p, [])
  | s :: rest =>
    let r1 := p.applySnapshot s
    let rRest := applyAllFrom r1.1 rest
    (rRest.1, r1.2 ++ rRest.2)

/-- Apply a sequence of snapshots from the freshly constructed proxy. -/
def applyAll (snaps : List (List (String × ProxyConfig))) :
    Proxy × List Event :=
  applyAllFrom initialProxy snaps

/-! Concrete configurations and executions used to evaluate the model on
explicit inputs. -/

/-- A configuration for service `svcX` with one upstream. -/
def exCfg : ProxyConfig :=
  { proxiedServiceName := "svcX", upstreams := ["u1"],
    serviceCreateFails := false }

/-- A configuration for service `svcX` with no upstreams. -/
def exCfg2 : ProxyConfig :=
  { proxiedServiceName := "svcX", upstreams := [], serviceCreateFails := false }

/-- A configuration whose `cfg.Service` call fails. -/
def exCfgFail : ProxyConfig :=
  { proxiedServiceName := "svcY", upstreams := [], serviceCreateFails := true }

/-- Proxy state after provisioning instance `a` with `exCfg`. -/
def exProvisioned : Proxy :=
  (Proxy.runServiceProxy initialProxy "a" exCfg).1

/-- An execution: provision `a`, let its public listener finish starting,
decommission it with an empty snapshot, then stop. -/
def exTrace : List Action :=
  [Action.snapshot [("a", exCfg)], Action.runBg "a", Action.snapshot [],
    Action.stop]

/-! ### Association list lemmas -/

@[simp] theorem keysOf_nil {α : Type} : keysOf ([] : List (String × α)) = [] :=
  rfl

@[simp] theorem keysOf_cons {α : Type} (kv : String × α)
    (m : List (String × α)) : keysOf (kv :: m) = kv.1 :: keysOf m :=
  rfl

theorem lookupA_isSome_iff {α : Type} (m : List (String × α)) (k : String) :
    (lookupA m k).isSome ↔ k ∈ keysOf m := by
  induction m with
  | nil => simp [lookupA, keysOf]
  | cons a rest ih =>
    obtain ⟨a1, a2⟩ := a
    by_cases h : a1 = k <;> simp [lookupA, keysOf, h] at ih ⊢
    · rw [ih]
      constructor
      · exact Or.inr
      · rintro (h2 | h2)
        · exact absurd h2.symm h
        · exact h2

theorem lookupA_insertOver {α : Type} (m : List (String × α))
    (k k2 : String) (v : α) :
    lookupA (insertOver m k v) k2 = if k = k2 then some v else lookupA m k2 := by
  induction m with
  | nil => simp [lookupA, insertOver]
  | cons a rest ih =>
    obtain ⟨a1, a2⟩ := a
    by_cases h : a1 = k
    · subst h
      by_cases h2 : a1 = k2 <;> simp [insertOver, lookupA, h2]
    · by_cases h2 : a1 = k2
      · subst h2
        have hk : ¬k = a1 := fun hh => h hh.symm
        simp [insertOver, lookupA, h, hk]
      · simp [insertOver, lookupA, h, h2, ih]

theorem mem_keysOf_insertOver {α : Type} (m : List (String × α))
    (k k2 : String) (v : α) :
    k2 ∈ keysOf (insertOver m k v) ↔ k2 ∈ keysOf m ∨ k2 = k := by
  rw [← lookupA_isSome_iff, ← lookupA_isSome_iff, lookupA_insertOver]
  by_cases h : k = k2 <;> simp [h]
  · exact fun hh => absurd hh.symm h

theorem nodup_insertOver {α : Type} (m : List (String × α))
    (k : String) (v : α) (h : (keysOf m).Nodup) :
    (keysOf (insertOver m k v)).Nodup := by
  induction m with
  | nil => simp [insertOver]
  | cons a rest ih =>
    obtain ⟨a1, a2⟩ := a
    rw [keysOf_cons, List.nodup_cons] at h
    by_cases h2 : a1 = k
    · subst h2
      have he : insertOver ((a1, a2) :: rest) a1 v = (a1, v) :: rest := by
        simp [insertOver]
      rw [he, keysOf_cons, List.nodup_cons]
      exact h
    · have he : insertOver ((a1, a2) :: rest) k v =
          (a1, a2) :: insertOver rest k v := by
        simp [insertOver, h2]
      rw [he, keysOf_cons, List.nodup_cons]
      refine ⟨?_, ih h.2⟩
      intro hmem
      rcases (mem_keysOf_insertOver rest k a1 v).mp hmem with h3 | h3
      · exact h.1 h3
      · exact h2 h3

theorem lookupA_eraseA {α : Type} (m : List (String × α)) (k k2 : String) :
    lookupA (eraseA m k) k2 = if k = k2 then none else lookupA m k2 := by
  induction m with
  | nil => simp [lookupA, eraseA]
  | cons a rest ih =>
    obtain ⟨a1, a2⟩ := a
    by_cases h : a1 = k
    · subst h
      by_cases h2 : a1 = k2
      · subst h2; simpa [eraseA, lookupA] using ih
      · simpa [eraseA, lookupA, h2] using ih
    · by_cases h2 : a1 = k2
      · subst h2
        have hk : ¬k = a1 := fun hh => h hh.symm
        simp [eraseA, lookupA, h, hk]
      · simpa [eraseA, lookupA, h, h2] using ih

theorem count_keysOf_eraseA {α : Type} (m : List (String × α)) (k k2 : String) :
    (keysOf (eraseA m k)).count k2 =
      if k = k2 then 0 else (keysOf m).count k2 := by
  induction m with
  | nil => simp [eraseA]
  | cons a rest ih =>
    obtain ⟨a1, a2⟩ := a
    by_cases h : a1 = k
    · subst h
      have he : eraseA ((a1, a2) :: rest) a1 = eraseA rest a1 := by
        simp [eraseA]
      rw [he, ih]
      by_cases h2 : a1 = k2
      · simp [h2]
      · simp [h2, List.count_cons, fun hh : k2 = a1 => h2 hh.symm]
    · have he : eraseA ((a1, a2) :: rest) k = (a1, a2) :: eraseA rest k := by
        simp [eraseA, h]
      rw [he, keysOf_cons, keysOf_cons, List.count_cons, List.count_cons, ih]
      by_cases h3 : k = k2 <;> simp [h3]
      intro h4
      exact h (h4.trans h3.symm)

theorem nodup_eraseA {α : Type} (m : List (String × α)) (k : String)
    (h : (keysOf m).Nodup) : (keysOf (eraseA m k)).Nodup := by
  induction m with
  | nil => simp [eraseA]
  | cons a rest ih =>
    obtain ⟨a1, a2⟩ := a
    rw [keysOf_cons, List.nodup_cons] at h
    by_cases h2 : a1 = k
    · have he : eraseA ((a1, a2) :: rest) k = eraseA rest k := by
        simp [eraseA, h2]
      rw [he]
      exact ih h.2
    · have he : eraseA ((a1, a2) :: rest) k = (a1, a2) :: eraseA rest k := by
        simp [eraseA, h2]
      rw [he, keysOf_cons, List.nodup_cons]
      refine ⟨?_, ih h.2⟩
      intro hmem
      rw [← lookupA_isSome_iff, lookupA_eraseA] at hmem
      by_cases h3 : k = a1
      · simp [h3] at hmem
      · simp [h3, lookupA_isSome_iff] at hmem
        exact h.1 hmem

theorem keysOf_withState {α : Type} (m : List (String × α)) (k : String)
    (f : α → α) : keysOf (withState m k f) = keysOf m := by
  induction m with
  | nil => simp [keysOf, withState]
  | cons a rest ih =>
    obtain ⟨a1, a2⟩ := a
    by_cases h : a1 = k <;> simp [keysOf, withState, h] at ih ⊢ <;> exact ih

theorem lookupA_withState {α : Type} (m : List (String × α)) (k k2 : String)
    (f : α → α) :
    lookupA (withState m k f) k2 =
      if k = k2 then (lookupA m k).map f else lookupA m k2 := by
  induction m with
  | nil => simp [lookupA, withState]
  | cons a rest ih =>
    obtain ⟨a1, a2⟩ := a
    by_cases h : a1 = k
    · subst h
      by_cases h2 : a1 = k2
      · subst h2; simp [withState, lookupA]
      · have hk : ¬a1 = k2 := h2
        simpa [withState, lookupA, hk] using ih
    · by_cases h2 : a1 = k2
      · subst h2
        have hk : ¬k = a1 := fun hh => h hh.symm
        simp [withState, lookupA, h, hk]
      · simpa [withState, lookupA, h, h2] using ih

theorem count_keysOf_nodup {α : Type} (m : List (String × α)) (k : String)
    (h : (keysOf m).Nodup) :
    (keysOf m).count k = if (lookupA m k).isSome then 1 else 0 := by
  by_cases hk : k ∈ keysOf m
  · simp [(lookupA_isSome_iff m k).mpr hk, List.count_eq_one_of_mem h hk]
  · have : ¬(lookupA m k).isSome := fun hs => hk ((lookupA_isSome_iff m k).mp hs)
    simp [this, List.count_eq_zero_of_not_mem hk]

/-! ### startUpstreams lemmas -/

theorem su_events (p : Proxy) (id : String) (ucs : List String) :
    (startUpstreams p id ucs).2 =
      ucs.map (fun uc => Event.listenerStart (ListenerId.upstreamL id uc)) := by
  induction ucs generalizing p with
  | nil => simp [startUpstreams]
  | cons uc rest ih => simp [startUpstreams, Proxy.startListener, ih]

theorem su_watchers (p : Proxy) (id : String) (ucs : List String) :
    (startUpstreams p id ucs).1.watchers =
      p.watchers ++ ucs.map (ListenerId.upstreamL id) := by
  induction ucs generalizing p with
  | nil => simp [startUpstreams]
  | cons uc rest ih => simp [startUpstreams, Proxy.startListener, ih]

theorem su_services (p : Proxy) (id : String) (ucs : List String) :
    (startUpstreams p id ucs).1.services = p.services := by
  induction ucs generalizing p with
  | nil => simp [startUpstreams]
  | cons uc rest ih => simp [startUpstreams, Proxy.startListener, ih]

theorem su_pending (p : Proxy) (id : String) (ucs : List String) :
    (startUpstreams p id ucs).1.pending = p.pending := by
  induction ucs generalizing p with
  | nil => simp [startUpstreams]
  | cons uc rest ih => simp [startUpstreams, Proxy.startListener, ih]

theorem su_stopClosed (p : Proxy) (id : String) (ucs : List String) :
    (startUpstreams p id ucs).1.stopClosed = p.stopClosed := by
  induction ucs generalizing p with
  | nil => simp [startUpstreams]
  | cons uc rest ih => simp [startUpstreams, Proxy.startListener, ih]

theorem su_keysOf_states (p : Proxy) (id : String) (ucs : List String) :
    keysOf (startUpstreams p id ucs).1.proxyStates = keysOf p.proxyStates := by
  induction ucs generalizing p with
  | nil => simp [startUpstreams]
  | cons uc rest ih =>
    simp [startUpstreams, Proxy.startListener, ih, keysOf_withState]

theorem su_lookup_states_ne (p : Proxy) (id : String) (ucs : List String)
    (id2 : String) (h : ¬id = id2) :
    lookupA (startUpstreams p id ucs).1.proxyStates id2 =
      lookupA p.proxyStates id2 := by
  induction ucs generalizing p with
  | nil => simp [startUpstreams]
  | cons uc rest ih =>
    simp [startUpstreams, Proxy.startListener, ih, lookupA_withState, h]

theorem su_states_isSome (p : Proxy) (id : String) (ucs : List String)
    (id2 : String) :
    (lookupA (startUpstreams p id ucs).1.proxyStates id2).isSome =
      (lookupA p.proxyStates id2).isSome := by
  rw [Bool.eq_iff_iff, lookupA_isSome_iff, lookupA_isSome_iff, su_keysOf_states]

theorem count_su_events (id : String) (ucs : List String) (e : Event)
    (h : ∀ l, e ≠ Event.listenerStart l) :
    (ucs.map (fun uc =>
      Event.listenerStart (ListenerId.upstreamL id uc))).count e = 0 := by
  apply List.count_eq_zero_of_not_mem
  simp only [List.mem_map]
  rintro ⟨uc, _, heq⟩
  exact h _ heq.symm

/-! ### runServiceProxy lemmas -/

theorem rsp_skip (p : Proxy) (id : String) (cfg : ProxyConfig)
    (h : (lookupA p.proxyStates id).isSome) :
    p.runServiceProxy id cfg = (p, []) := by
  simp [Proxy.runServiceProxy, h]

theorem rsp_states_isSome (p : Proxy) (id : String) (cfg : ProxyConfig)
    (id2 : String) :
    (lookupA (p.runServiceProxy id cfg).1.proxyStates id2).isSome ↔
      (lookupA p.proxyStates id2).isSome ∨ id2 = id := by
  cases hm : lookupA p.proxyStates id with
  | some st =>
    rw [rsp_skip p id cfg (by simp [hm])]
    constructor
    · exact Or.inl
    · rintro (h2 | h2)
      · exact h2
      · subst h2; simp [hm]
  | none =>
    simp only [Proxy.runServiceProxy, hm]
    simp only [Option.isSome_none, Bool.false_eq_true, if_false]
    rw [su_states_isSome]
    simp only [lookupA_insertOver]
    by_cases h2 : id = id2
    · subst h2; simp
    · rw [if_neg h2]
      constructor
      · exact Or.inl
      · rintro (hh | hh)
        · exact hh
        · exact absurd hh.symm h2

theorem rsp_states_nodup (p : Proxy) (id : String) (cfg : ProxyConfig)
    (h : (keysOf p.proxyStates).Nodup) :
    (keysOf (p.runServiceProxy id cfg).1.proxyStates).Nodup := by
  cases hm : lookupA p.proxyStates id with
  | some st => rw [rsp_skip p id cfg (by simp [hm])]; exact h
  | none =>
    simp only [Proxy.runServiceProxy, hm]
    simp only [Option.isSome_none, Bool.false_eq_true, if_false]
    rw [su_keysOf_states]
    exact nodup_insertOver _ _ _ h

theorem rsp_services_of_isSome (p : Proxy) (id : String) (cfg : ProxyConfig)
    (N : String) (h : (lookupA p.services N).isSome) :
    lookupA (p.runServiceProxy id cfg).1.services N = lookupA p.services N := by
  cases hm : lookupA p.proxyStates id with
  | some st => rw [rsp_skip p id cfg (by simp [hm])]
  | none =>
    simp only [Proxy.runServiceProxy, hm]
    simp only [Option.isSome_none, Bool.false_eq_true, if_false]
    rw [su_services]
    cases hsvc : lookupA p.services cfg.proxiedServiceName with
    | some w => simp [hsvc]
    | none =>
      have hne : ¬cfg.proxiedServiceName = N := by
        intro hh; rw [hh] at hsvc; simp [hsvc] at h
      simp [hsvc, lookupA_insertOver, hne]

theorem rsp_services_isSome (p : Proxy) (id : String) (cfg : ProxyConfig)
    (N : String) :
    (lookupA (p.runServiceProxy id cfg).1.services N).isSome ↔
      (lookupA p.services N).isSome ∨
        (lookupA p.proxyStates id = none ∧ N = cfg.proxiedServiceName) := by
  cases hm : lookupA p.proxyStates id with
  | some st =>
    rw [rsp_skip p id cfg (by simp [hm])]
    simp [hm]
  | none =>
    simp only [Proxy.runServiceProxy, hm]
    simp only [Option.isSome_none, Bool.false_eq_true, if_false]
    rw [su_services]
    cases hsvc : lookupA p.services cfg.proxiedServiceName with
    | some w =>
      simp only [hsvc, Option.isNone_some, Bool.false_eq_true, if_false]
      constructor
      · exact Or.inl
      · rintro (h2 | h2)
        · exact h2
        · rw [h2.2, hsvc]; simp
    | none =>
      simp only [hsvc, Option.isNone_none, if_true]
      rw [lookupA_insertOver]
      by_cases h2 : cfg.proxiedServiceName = N
      · subst h2; simp
      · rw [if_neg h2]
        constructor
        · exact Or.inl
        · rintro (hh | hh)
          · exact hh
          · exact absurd hh.2.symm h2

theorem rsp_services_nodup (p : Proxy) (id : String) (cfg : ProxyConfig)
    (h : (keysOf p.services).Nodup) :
    (keysOf (p.runServiceProxy id cfg).1.services).Nodup := by
  cases hm : lookupA p.proxyStates id with
  | some st => rw [rsp_skip p id cfg (by simp [hm])]; exact h
  | none =>
    simp only [Proxy.runServiceProxy, hm]
    simp only [Option.isSome_none, Bool.false_eq_true, if_false]
    rw [su_services]
    cases hsvc : lookupA p.services cfg.proxiedServiceName with
    | some w => simpa [hsvc] using h
    | none =>
      simp only [hsvc, Option.isNone_none, if_true]
      exact nodup_insertOver _ _ _ h

theorem rsp_services_store (p : Proxy) (id : String) (cfg : ProxyConfig)
    (hm : lookupA p.proxyStates id = none)
    (habs : lookupA p.services cfg.proxiedServiceName = none) :
    lookupA (p.runServiceProxy id cfg).1.services cfg.proxiedServiceName =
      some (if cfg.serviceCreateFails then none else some ()) := by
  simp only [Proxy.runServiceProxy, hm]
  simp only [Option.isSome_none, Bool.false_eq_true, if_false]
  rw [su_services]
  simp [habs, lookupA_insertOver]

theorem rsp_count_provision (p : Proxy) (id : String) (cfg : ProxyConfig)
    (id2 : String) :
    (p.runServiceProxy id cfg).2.count (Event.provision id2) =
      if id2 = id ∧ lookupA p.proxyStates id = none then 1 else 0 := by
  cases hm : lookupA p.proxyStates id with
  | some st => rw [rsp_skip p id cfg (by simp [hm])]; simp
  | none =>
    simp only [Proxy.runServiceProxy, hm]
    simp only [Option.isSome_none, Bool.false_eq_true, if_false]
    rw [List.count_cons, List.count_append, su_events,
      count_su_events id cfg.upstreams _ (by intro l; simp)]
    by_cases h2 : id2 = id
    · subst h2
      cases hsvc : lookupA p.services cfg.proxiedServiceName with
      | some w => simp [hsvc]
      | none =>
        by_cases hf : cfg.serviceCreateFails <;>
          simp [hsvc, hf, waitSVC, tlsIdentityInfo]
    · have hne : ¬id = id2 := fun hh => h2 hh.symm
      cases hsvc : lookupA p.services cfg.proxiedServiceName with
      | some w => simp [hsvc, h2, hne]
      | none =>
        by_cases hf : cfg.serviceCreateFails <;>
          simp [hsvc, hf, h2, hne, waitSVC, tlsIdentityInfo]

theorem rsp_count_create (p : Proxy) (id : String) (cfg : ProxyConfig)
    (N : String) :
    (p.runServiceProxy id cfg).2.count (Event.serviceCreate N) =
      if lookupA p.proxyStates id = none ∧ N = cfg.proxiedServiceName ∧
          lookupA p.services cfg.proxiedServiceName = none then 1 else 0 := by
  cases hm : lookupA p.proxyStates id with
  | some st => rw [rsp_skip p id cfg (by simp [hm])]; simp
  | none =>
    simp only [Proxy.runServiceProxy, hm]
    simp only [Option.isSome_none, Bool.false_eq_true, if_false]
    rw [List.count_cons, List.count_append, su_events,
      count_su_events id cfg.upstreams _ (by intro l; simp)]
    cases hsvc : lookupA p.services cfg.proxiedServiceName with
    | some w => simp [hsvc]
    | none =>
      by_cases h2 : N = cfg.proxiedServiceName
      · subst h2
        by_cases hf : cfg.serviceCreateFails <;>
          simp [hsvc, hf, waitSVC, tlsIdentityInfo]
      · have hne : ¬cfg.proxiedServiceName = N := fun hh => h2 hh.symm
        by_cases hf : cfg.serviceCreateFails <;>
          simp [hsvc, hf, h2, hne, waitSVC, tlsIdentityInfo]

theorem rsp_count_decommission (p : Proxy) (id : String) (cfg : ProxyConfig)
    (id2 : String) :
    (p.runServiceProxy id cfg).2.count (Event.decommission id2) = 0 := by
  cases hm : lookupA p.proxyStates id with
  | some st => rw [rsp_skip p id cfg (by simp [hm])]; simp
  | none =>
    simp only [Proxy.runServiceProxy, hm]
    simp only [Option.isSome_none, Bool.false_eq_true, if_false]
    rw [List.count_cons, List.count_append, su_events,
      count_su_events id cfg.upstreams _ (by intro l; simp)]
    cases hsvc : lookupA p.services cfg.proxiedServiceName with
    | some w => simp [hsvc]
    | none =>
      by_cases hf : cfg.serviceCreateFails <;>
        simp [hsvc, hf, waitSVC, tlsIdentityInfo]

theorem rsp_count_sclose (p : Proxy) (id : String) (cfg : ProxyConfig)
    (N : String) :
    (p.runServiceProxy id cfg).2.count (Event.serviceClose N) = 0 := by
  cases hm : lookupA p.proxyStates id with
  | some st => rw [rsp_skip p id cfg (by simp [hm])]; simp
  | none =>
    simp only [Proxy.runServiceProxy, hm]
    simp only [Option.isSome_none, Bool.false_eq_true, if_false]
    rw [List.count_cons, List.count_append, su_events,
      count_su_events id cfg.upstreams _ (by intro l; simp)]
    cases hsvc : lookupA p.services cfg.proxiedServiceName with
    | some w => simp [hsvc]
    | none =>
      by_cases hf : cfg.serviceCreateFails <;>
        simp [hsvc, hf, waitSVC, tlsIdentityInfo]

theorem rsp_no_errlog (p : Proxy) (id : String) (cfg : ProxyConfig)
    (n : String) :
    Event.startListenerErrLog n ∉ (p.runServiceProxy id cfg).2 := by
  cases hm : lookupA p.proxyStates id with
  | some st => rw [rsp_skip p id cfg (by simp [hm])]; simp
  | none =>
    simp only [Proxy.runServiceProxy, hm]
    simp only [Option.isSome_none, Bool.false_eq_true, if_false]
    rw [su_events]
    cases hsvc : lookupA p.services cfg.proxiedServiceName with
    | some w => simp [hsvc]
    | none =>
      by_cases hf : cfg.serviceCreateFails <;>
        simp [hsvc, hf, waitSVC, tlsIdentityInfo]

theorem rsp_watchers_mono (p : Proxy) (id : String) (cfg : ProxyConfig)
    (l : ListenerId) (h : l ∈ p.watchers) :
    l ∈ (p.runServiceProxy id cfg).1.watchers := by
  cases hm : lookupA p.proxyStates id with
  | some st => rw [rsp_skip p id cfg (by simp [hm])]; exact h
  | none =>
    simp only [Proxy.runServiceProxy, hm]
    simp only [Option.isSome_none, Bool.false_eq_true, if_false]
    rw [su_watchers]
    simp [h]

theorem rsp_start_watch (p : Proxy) (id : String) (cfg : ProxyConfig)
    (l : ListenerId) (h : Event.listenerStart l ∈ (p.runServiceProxy id cfg).2) :
    l ∈ (p.runServiceProxy id cfg).1.watchers := by
  cases hm : lookupA p.proxyStates id with
  | some st => rw [rsp_skip p id cfg (by simp [hm])] at h ⊢; simp at h
  | none =>
    simp only [Proxy.runServiceProxy, hm] at h ⊢
    simp only [Option.isSome_none, Bool.false_eq_true, if_false] at h ⊢
    rw [su_watchers]
    rw [su_events] at h
    simp only [List.mem_cons, List.mem_append] at h
    rcases h with h | h
    · exact absurd h (by simp)
    · have : Event.listenerStart l ∈
          cfg.upstreams.map (fun uc =>
            Event.listenerStart (ListenerId.upstreamL id uc)) := by
        rcases h with h | h
        · exfalso
          rcases hsvc : lookupA p.services cfg.proxiedServiceName with _ | w <;>
            rw [hsvc] at h <;>
            rcases hf : cfg.serviceCreateFails <;>
              simp [hf, waitSVC, tlsIdentityInfo] at h
        · exact h
      simp only [List.mem_map] at this
      rcases this with ⟨uc, hmem, heq⟩
      simp only [List.mem_append, List.mem_map]
      right
      exact ⟨uc, hmem, by injection heq⟩

theorem rsp_stopClosed (p : Proxy) (id : String) (cfg : ProxyConfig) :
    (p.runServiceProxy id cfg).1.stopClosed = p.stopClosed := by
  cases hm : lookupA p.proxyStates id with
  | some st => rw [rsp_skip p id cfg (by simp [hm])]
  | none =>
    simp only [Proxy.runServiceProxy, hm]
    simp only [Option.isSome_none, Bool.false_eq_true, if_false]
    rw [su_stopClosed]

/-! ### provisionPhase lemmas -/

theorem pp_states_isSome (p : Proxy) (s : List (String × ProxyConfig))
    (id2 : String) :
    (lookupA (provisionPhase p s).1.proxyStates id2).isSome ↔
      (lookupA p.proxyStates id2).isSome ∨ id2 ∈ keysOf s := by
  induction s generalizing p with
  | nil => simp [provisionPhase]
  | cons hd rest ih =>
    obtain ⟨id, cfg⟩ := hd
    simp only [provisionPhase]
    rw [ih, rsp_states_isSome, keysOf_cons]
    simp only [List.mem_cons]
    tauto

theorem pp_states_nodup (p : Proxy) (s : List (String × ProxyConfig))
    (h : (keysOf p.proxyStates).Nodup) :
    (keysOf (provisionPhase p s).1.proxyStates).Nodup := by
  induction s generalizing p with
  | nil => simpa [provisionPhase] using h
  | cons hd rest ih =>
    obtain ⟨id, cfg⟩ := hd
    simp only [provisionPhase]
    exact ih _ (rsp_states_nodup p id cfg h)

theorem pp_services_nodup (p : Proxy) (s : List (String × ProxyConfig))
    (h : (keysOf p.services).Nodup) :
    (keysOf (provisionPhase p s).1.services).Nodup := by
  induction s generalizing p with
  | nil => simpa [provisionPhase] using h
  | cons hd rest ih =>
    obtain ⟨id, cfg⟩ := hd
    simp only [provisionPhase]
    exact ih _ (rsp_services_nodup p id cfg h)

theorem pp_svc_preserve (p : Proxy) (s : List (String × ProxyConfig))
    (N : String) (h : (lookupA p.services N).isSome) :
    lookupA (provisionPhase p s).1.services N = lookupA p.services N := by
  induction s generalizing p with
  | nil => simp [provisionPhase]
  | cons hd rest ih =>
    obtain ⟨id, cfg⟩ := hd
    simp only [provisionPhase]
    have h1 := rsp_services_of_isSome p id cfg N h
    rw [ih _ (by rw [h1]; exact h), h1]

theorem pp_count_provision (p : Proxy) (s : List (String × ProxyConfig))
    (id2 : String) :
    (provisionPhase p s).2.count (Event.provision id2) =
      if id2 ∈ keysOf s ∧ lookupA p.proxyStates id2 = none then 1 else 0 := by
  induction s generalizing p with
  | nil => simp [provisionPhase]
  | cons hd rest ih =>
    obtain ⟨id, cfg⟩ := hd
    simp only [provisionPhase, List.count_append]
    rw [ih, rsp_count_provision, keysOf_cons]
    by_cases hid : id2 = id
    · subst hid
      cases hm : lookupA p.proxyStates id2 with
      | none =>
        have hr : ¬lookupA (p.runServiceProxy id2 cfg).1.proxyStates id2 = none := by
          rw [← Option.not_isSome_iff_eq_none, not_not, rsp_states_isSome]
          exact Or.inr rfl
        simp [hm, hr]
      | some st =>
        rw [rsp_skip p id2 cfg (by simp [hm])]
        simp [hm]
    · have hr : lookupA (p.runServiceProxy id cfg).1.proxyStates id2 = none ↔
          lookupA p.proxyStates id2 = none := by
        rw [← Option.not_isSome_iff_eq_none, ← Option.not_isSome_iff_eq_none,
          rsp_states_isSome]
        simp [hid]
      by_cases hmem : id2 ∈ keysOf rest <;>
        by_cases hn : lookupA p.proxyStates id2 = none <;>
          simp [hid, hmem, hn, hr]

theorem pp_count_decommission (p : Proxy) (s : List (String × ProxyConfig))
    (id2 : String) :
    (provisionPhase p s).2.count (Event.decommission id2) = 0 := by
  induction s generalizing p with
  | nil => simp [provisionPhase]
  | cons hd rest ih =>
    obtain ⟨id, cfg⟩ := hd
    simp only [provisionPhase, List.count_append]
    rw [ih, rsp_count_decommission]

theorem pp_count_sclose (p : Proxy) (s : List (String × ProxyConfig))
    (N : String) :
    (provisionPhase p s).2.count (Event.serviceClose N) = 0 := by
  induction s generalizing p with
  | nil => simp [provisionPhase]
  | cons hd rest ih =>
    obtain ⟨id, cfg⟩ := hd
    simp only [provisionPhase, List.count_append]
    rw [ih, rsp_count_sclose]

theorem pp_no_errlog (p : Proxy) (s : List (String × ProxyConfig))
    (n : String) : Event.startListenerErrLog n ∉ (provisionPhase p s).2 := by
  induction s generalizing p with
  | nil => simp [provisionPhase]
  | cons hd rest ih =>
    obtain ⟨id, cfg⟩ := hd
    simp only [provisionPhase, List.mem_append]
    rintro (h | h)
    · exact rsp_no_errlog p id cfg n h
    · exact ih _ h

theorem pp_create_zero_of_isSome (p : Proxy) (s : List (String × ProxyConfig))
    (N : String) (h : (lookupA p.services N).isSome) :
    (provisionPhase p s).2.count (Event.serviceCreate N) = 0 := by
  induction s generalizing p with
  | nil => simp [provisionPhase]
  | cons hd rest ih =>
    obtain ⟨id, cfg⟩ := hd
    simp only [provisionPhase, List.count_append]
    have h1 : (p.runServiceProxy id cfg).2.count (Event.serviceCreate N) = 0 := by
      rw [rsp_count_create]
      by_cases hN : N = cfg.proxiedServiceName
      · subst hN
        have hx : ¬lookupA p.services cfg.proxiedServiceName = none := by
          rw [← Option.not_isSome_iff_eq_none, not_not]; exact h
        simp [hx]
      · simp [hN]
    have h2 : (lookupA (p.runServiceProxy id cfg).1.services N).isSome := by
      rw [rsp_services_of_isSome p id cfg N h]; exact h
    rw [h1, ih _ h2]

theorem pp_svc_isSome_iff (p : Proxy) (s : List (String × ProxyConfig))
    (N : String) :
    (lookupA (provisionPhase p s).1.services N).isSome ↔
      (lookupA p.services N).isSome ∨
        0 < (provisionPhase p s).2.count (Event.serviceCreate N) := by
  induction s generalizing p with
  | nil => simp [provisionPhase]
  | cons hd rest ih =>
    obtain ⟨id, cfg⟩ := hd
    simp only [provisionPhase, List.count_append]
    rw [ih, rsp_services_isSome, rsp_count_create]
    by_cases hp : (lookupA p.services N).isSome
    · have h1 : (p.runServiceProxy id cfg).2.count (Event.serviceCreate N) = 0 := by
        rw [rsp_count_create]
        by_cases hN : N = cfg.proxiedServiceName
        · subst hN
          have hx : ¬lookupA p.services cfg.proxiedServiceName = none := by
            rw [← Option.not_isSome_iff_eq_none, not_not]; exact hp
          simp [hx]
        · simp [hN]
      rw [rsp_count_create] at h1
      simp [hp, h1]
    · have hpn : lookupA p.services N = none :=
        Option.not_isSome_iff_eq_none.mp hp
      by_cases hcond : lookupA p.proxyStates id = none ∧
          N = cfg.proxiedServiceName ∧
          lookupA p.services cfg.proxiedServiceName = none
      · simp only [hcond, if_true, hp]
        have hc2 : lookupA p.proxyStates id = none ∧ N = cfg.proxiedServiceName :=
          ⟨hcond.1, hcond.2.1⟩
        simp [hc2]
      · rw [if_neg hcond]
        have hcond2 : ¬(lookupA p.proxyStates id = none ∧
            N = cfg.proxiedServiceName) := by
          rintro ⟨ha, hb⟩
          exact hcond ⟨ha, hb, by rw [← hb]; exact hpn⟩
        simp [hp, hcond2]

theorem pp_create_le_one (p : Proxy) (s : List (String × ProxyConfig))
    (N : String) :
    (provisionPhase p s).2.count (Event.serviceCreate N) ≤ 1 := by
  induction s generalizing p with
  | nil => simp [provisionPhase]
  | cons hd rest ih =>
    obtain ⟨id, cfg⟩ := hd
    simp only [provisionPhase, List.count_append]
    by_cases hcond : lookupA p.proxyStates id = none ∧
        N = cfg.proxiedServiceName ∧
        lookupA p.services cfg.proxiedServiceName = none
    · have h1 : (p.runServiceProxy id cfg).2.count (Event.serviceCreate N) = 1 := by
        rw [rsp_count_create, if_pos hcond]
      have h2 : (lookupA (p.runServiceProxy id cfg).1.services N).isSome := by
        rw [rsp_services_isSome]
        exact Or.inr ⟨hcond.1, hcond.2.1⟩
      rw [h1, pp_create_zero_of_isSome _ _ _ h2]
    · have h1 : (p.runServiceProxy id cfg).2.count (Event.serviceCreate N) = 0 := by
        rw [rsp_count_create, if_neg hcond]
      rw [h1]
      simpa using ih ((p.runServiceProxy id cfg).1)

theorem pp_services_mem_of_pair (p : Proxy) (s : List (String × ProxyConfig))
    (id : String) (cfg : ProxyConfig) (hmem : (id, cfg) ∈ s)
    (hnew : lookupA p.proxyStates id = none) (hnd : (keysOf s).Nodup) :
    (lookupA (provisionPhase p s).1.services cfg.proxiedServiceName).isSome := by
  induction s generalizing p with
  | nil => simp at hmem
  | cons hd rest ih =>
    obtain ⟨hid, hcfg⟩ := hd
    rw [keysOf_cons, List.nodup_cons] at hnd
    rcases List.mem_cons.mp hmem with heq | hrest
    · injection heq with he1 he2
      subst he1; subst he2
      simp only [provisionPhase]
      have h2 : (lookupA (p.runServiceProxy id cfg).1.services
          cfg.proxiedServiceName).isSome := by
        rw [rsp_services_isSome]
        exact Or.inr ⟨hnew, rfl⟩
      rw [pp_svc_preserve _ _ _ h2]
      exact h2
    · have hidmem : id ∈ keysOf rest := by
        simp only [keysOf, List.mem_map]
        exact ⟨(id, cfg), hrest, rfl⟩
      have hne : ¬id = hid := fun hh => hnd.1 (hh ▸ hidmem)
      simp only [provisionPhase]
      refine ih _ hrest ?_ hnd.2
      rw [← Option.not_isSome_iff_eq_none, rsp_states_isSome]
      rintro (h | h)
      · rw [hnew] at h; simp at h
      · exact hne h

theorem pp_stopClosed (p : Proxy) (s : List (String × ProxyConfig)) :
    (provisionPhase p s).1.stopClosed = p.stopClosed := by
  induction s generalizing p with
  | nil => simp [provisionPhase]
  | cons hd rest ih =>
    obtain ⟨id, cfg⟩ := hd
    simp only [provisionPhase]
    rw [ih, rsp_stopClosed]

theorem pp_watchers_mono (p : Proxy) (s : List (String × ProxyConfig))
    (l : ListenerId) (h : l ∈ p.watchers) :
    l ∈ (provisionPhase p s).1.watchers := by
  induction s generalizing p with
  | nil => simpa [provisionPhase] using h
  | cons hd rest ih =>
    obtain ⟨id, cfg⟩ := hd
    simp only [provisionPhase]
    exact ih _ (rsp_watchers_mono p id cfg l h)

theorem pp_start_watch (p : Proxy) (s : List (String × ProxyConfig))
    (l : ListenerId) (h : Event.listenerStart l ∈ (provisionPhase p s).2) :
    l ∈ (provisionPhase p s).1.watchers := by
  induction s generalizing p with
  | nil => simp [provisionPhase] at h
  | cons hd rest ih =>
    obtain ⟨id, cfg⟩ := hd
    simp only [provisionPhase, List.mem_append] at h ⊢
    rcases h with h | h
    · exact pp_watchers_mono _ _ _ (rsp_start_watch p id cfg l h)
    · exact ih _ h

/-! ### Removal lemmas -/

theorem lookupA_foldl_eraseA {α β : Type} (s : List β) (m : List (String × α))
    (f : β → String) (k : String) :
    lookupA (s.foldl (fun sc kv => eraseA sc (f kv)) m) k =
      if k ∈ s.map f then none else lookupA m k := by
  induction s generalizing m with
  | nil => simp
  | cons hd rest ih =>
    simp only [List.foldl_cons, List.map_cons, List.mem_cons]
    rw [ih, lookupA_eraseA]
    by_cases h1 : k ∈ rest.map f
    · simp [h1]
    · by_cases h2 : f hd = k
      · simp [h1, h2]
      · have hne : ¬k = f hd := fun hh => h2 hh.symm
        simp [h1, h2, hne]

theorem count_keysOf_foldl_eraseA {α β : Type} (s : List β)
    (m : List (String × α)) (f : β → String) (k : String) :
    (keysOf (s.foldl (fun sc kv => eraseA sc (f kv)) m)).count k =
      if k ∈ s.map f then 0 else (keysOf m).count k := by
  induction s generalizing m with
  | nil => simp
  | cons hd rest ih =>
    simp only [List.foldl_cons, List.map_cons, List.mem_cons]
    rw [ih, count_keysOf_eraseA]
    by_cases h1 : k ∈ rest.map f
    · simp [h1]
    · by_cases h2 : f hd = k
      · simp [h1, h2]
      · have hne : ¬k = f hd := fun hh => h2 hh.symm
        simp [h1, h2, hne]

theorem nodup_foldl_eraseA {α β : Type} (s : List β) (m : List (String × α))
    (f : β → String) (h : (keysOf m).Nodup) :
    (keysOf (s.foldl (fun sc kv => eraseA sc (f kv)) m)).Nodup := by
  induction s generalizing m with
  | nil => simpa using h
  | cons hd rest ih =>
    simp only [List.foldl_cons]
    exact ih _ (nodup_eraseA _ _ h)

theorem rpx_lookup (p : Proxy) (new : List (String × ProxyConfig))
    (id : String) :
    lookupA (p.removedProxies new) id =
      if id ∈ keysOf new then none else lookupA p.proxyStates id := by
  have := lookupA_foldl_eraseA new p.proxyStates Prod.fst id
  simpa [Proxy.removedProxies, keysOf] using this

theorem rpx_count (p : Proxy) (new : List (String × ProxyConfig))
    (id : String) :
    (keysOf (p.removedProxies new)).count id =
      if id ∈ keysOf new then 0 else (keysOf p.proxyStates).count id := by
  have := count_keysOf_foldl_eraseA new p.proxyStates Prod.fst id
  simpa [Proxy.removedProxies, keysOf] using this

theorem rsv_lookup (p : Proxy) (new : List (String × ProxyConfig))
    (N : String) :
    lookupA (p.removedServices new) N =
      if N ∈ referencedNames new then none else lookupA p.services N := by
  have := lookupA_foldl_eraseA new p.services
    (fun kv => kv.2.proxiedServiceName) N
  simpa [Proxy.removedServices, referencedNames] using this

theorem rsv_count (p : Proxy) (new : List (String × ProxyConfig))
    (N : String) :
    (keysOf (p.removedServices new)).count N =
      if N ∈ referencedNames new then 0 else (keysOf p.services).count N := by
  have := count_keysOf_foldl_eraseA new p.services
    (fun kv => kv.2.proxiedServiceName) N
  simpa [Proxy.removedServices, referencedNames] using this

theorem dp_services (p : Proxy) (rem : List (String × proxyState)) :
    (decommissionPhase p rem).1.services = p.services := by
  induction rem generalizing p with
  | nil => simp [decommissionPhase]
  | cons hd rest ih =>
    obtain ⟨id0, st⟩ := hd
    simp only [decommissionPhase]
    rw [ih]

theorem dp_watchers (p : Proxy) (rem : List (String × proxyState)) :
    (decommissionPhase p rem).1.watchers = p.watchers := by
  induction rem generalizing p with
  | nil => simp [decommissionPhase]
  | cons hd rest ih =>
    obtain ⟨id0, st⟩ := hd
    simp only [decommissionPhase]
    rw [ih]

theorem dp_stopClosed (p : Proxy) (rem : List (String × proxyState)) :
    (decommissionPhase p rem).1.stopClosed = p.stopClosed := by
  induction rem generalizing p with
  | nil => simp [decommissionPhase]
  | cons hd rest ih =>
    obtain ⟨id0, st⟩ := hd
    simp only [decommissionPhase]
    rw [ih]

theorem dp_states_lookup (p : Proxy) (rem : List (String × proxyState))
    (id : String) :
    lookupA (decommissionPhase p rem).1.proxyStates id =
      if id ∈ keysOf rem then none else lookupA p.proxyStates id := by
  induction rem generalizing p with
  | nil => simp [decommissionPhase]
  | cons hd rest ih =>
    obtain ⟨id0, st⟩ := hd
    simp only [decommissionPhase, keysOf_cons, List.mem_cons]
    rw [ih, lookupA_eraseA]
    by_cases h1 : id ∈ keysOf rest
    · simp [h1]
    · by_cases h2 : id0 = id
      · simp [h1, h2]
      · have hne : ¬id = id0 := fun hh => h2 hh.symm
        simp [h1, h2, hne]

theorem dp_states_nodup (p : Proxy) (rem : List (String × proxyState))
    (h : (keysOf p.proxyStates).Nodup) :
    (keysOf (decommissionPhase p rem).1.proxyStates).Nodup := by
  induction rem generalizing p with
  | nil => simpa [decommissionPhase] using h
  | cons hd rest ih =>
    obtain ⟨id0, st⟩ := hd
    simp only [decommissionPhase]
    exact ih _ (nodup_eraseA _ _ h)

theorem dp_count_dec (p : Proxy) (rem : List (String × proxyState))
    (id : String) :
    (decommissionPhase p rem).2.count (Event.decommission id) =
      (keysOf rem).count id := by
  induction rem generalizing p with
  | nil => simp [decommissionPhase]
  | cons hd rest ih =>
    obtain ⟨id0, st⟩ := hd
    simp only [decommissionPhase, List.count_append, keysOf_cons,
      List.count_cons]
    rw [ih]
    have h1 : (closeRecordedListener st.listener).count
        (Event.decommission id) = 0 := by
      cases hst : st.listener <;> simp [closeRecordedListener]
    have h2 : (st.upstreams.map (fun kv =>
        Event.listenerClose kv.2)).count (Event.decommission id) = 0 := by
      apply List.count_eq_zero_of_not_mem
      simp only [List.mem_map]
      rintro ⟨kv, _, heq⟩
      simp at heq
    rw [h1, h2]
    by_cases h3 : id0 = id
    · simp [h3]
      omega
    · have hne : ¬id = id0 := fun hh => h3 hh.symm
      simp [h3, hne]

theorem dp_count_provision (p : Proxy) (rem : List (String × proxyState))
    (id : String) :
    (decommissionPhase p rem).2.count (Event.provision id) = 0 := by
  induction rem generalizing p with
  | nil => simp [decommissionPhase]
  | cons hd rest ih =>
    obtain ⟨id0, st⟩ := hd
    simp only [decommissionPhase, List.count_append]
    rw [ih]
    have h1 : (closeRecordedListener st.listener).count
        (Event.provision id) = 0 := by
      cases hst : st.listener <;> simp [closeRecordedListener]
    have h2 : (st.upstreams.map (fun kv =>
        Event.listenerClose kv.2)).count (Event.provision id) = 0 := by
      apply List.count_eq_zero_of_not_mem
      simp only [List.mem_map]
      rintro ⟨kv, _, heq⟩
      simp at heq
    rw [h1, h2]
    simp

theorem dp_count_create (p : Proxy) (rem : List (String × proxyState))
    (N : String) :
    (decommissionPhase p rem).2.count (Event.serviceCreate N) = 0 := by
  induction rem generalizing p with
  | nil => simp [decommissionPhase]
  | cons hd rest ih =>
    obtain ⟨id0, st⟩ := hd
    simp only [decommissionPhase, List.count_append]
    rw [ih]
    have h1 : (closeRecordedListener st.listener).count
        (Event.serviceCreate N) = 0 := by
      cases hst : st.listener <;> simp [closeRecordedListener]
    have h2 : (st.upstreams.map (fun kv =>
        Event.listenerClose kv.2)).count (Event.serviceCreate N) = 0 := by
      apply List.count_eq_zero_of_not_mem
      simp only [List.mem_map]
      rintro ⟨kv, _, heq⟩
      simp at heq
    rw [h1, h2]
    simp

theorem dp_count_sclose (p : Proxy) (rem : List (String × proxyState))
    (N : String) :
    (decommissionPhase p rem).2.count (Event.serviceClose N) = 0 := by
  induction rem generalizing p with
  | nil => simp [decommissionPhase]
  | cons hd rest ih =>
    obtain ⟨id0, st⟩ := hd
    simp only [decommissionPhase, List.count_append]
    rw [ih]
    have h1 : (closeRecordedListener st.listener).count
        (Event.serviceClose N) = 0 := by
      cases hst : st.listener <;> simp [closeRecordedListener]
    have h2 : (st.upstreams.map (fun kv =>
        Event.listenerClose kv.2)).count (Event.serviceClose N) = 0 := by
      apply List.count_eq_zero_of_not_mem
      simp only [List.mem_map]
      rintro ⟨kv, _, heq⟩
      simp at heq
    rw [h1, h2]
    simp

theorem dp_no_start (p : Proxy) (rem : List (String × proxyState))
    (l : ListenerId) :
    Event.listenerStart l ∉ (decommissionPhase p rem).2 := by
  induction rem generalizing p with
  | nil => simp [decommissionPhase]
  | cons hd rest ih =>
    obtain ⟨id0, st⟩ := hd
    intro h
    simp only [decommissionPhase] at h
    rcases List.mem_append.mp h with h1 | h1
    · rcases List.mem_append.mp h1 with h2 | h2
      · rcases List.mem_append.mp h2 with h3 | h3
        · cases hst : st.listener <;> rw [hst] at h3 <;>
            simp [closeRecordedListener] at h3
        · simp only [List.mem_map] at h3
          rcases h3 with ⟨kv, _, heq⟩
          simp at heq
      · simp at h2
    · exact ih _ h1

theorem sp_states (p : Proxy) (rems : List (String × Option Unit)) :
    (serviceClosePhase p rems).1.proxyStates = p.proxyStates := by
  induction rems generalizing p with
  | nil => simp [serviceClosePhase]
  | cons hd rest ih =>
    obtain ⟨nm, sv⟩ := hd
    simp only [serviceClosePhase]
    rw [ih]

theorem sp_watchers (p : Proxy) (rems : List (String × Option Unit)) :
    (serviceClosePhase p rems).1.watchers = p.watchers := by
  induction rems generalizing p with
  | nil => simp [serviceClosePhase]
  | cons hd rest ih =>
    obtain ⟨nm, sv⟩ := hd
    simp only [serviceClosePhase]
    rw [ih]

theorem sp_stopClosed (p : Proxy) (rems : List (String × Option Unit)) :
    (serviceClosePhase p rems).1.stopClosed = p.stopClosed := by
  induction rems generalizing p with
  | nil => simp [serviceClosePhase]
  | cons hd rest ih =>
    obtain ⟨nm, sv⟩ := hd
    simp only [serviceClosePhase]
    rw [ih]

theorem sp_services_lookup (p : Proxy) (rems : List (String × Option Unit))
    (N : String) :
    lookupA (serviceClosePhase p rems).1.services N =
      if N ∈ keysOf rems then none else lookupA p.services N := by
  induction rems generalizing p with
  | nil => simp [serviceClosePhase]
  | cons hd rest ih =>
    obtain ⟨nm, sv⟩ := hd
    simp only [serviceClosePhase, keysOf_cons, List.mem_cons]
    rw [ih, lookupA_eraseA]
    by_cases h1 : N ∈ keysOf rest
    · simp [h1]
    · by_cases h2 : nm = N
      · simp [h1, h2]
      · have hne : ¬N = nm := fun hh => h2 hh.symm
        simp [h1, h2, hne]

theorem sp_services_nodup (p : Proxy) (rems : List (String × Option Unit))
    (h : (keysOf p.services).Nodup) :
    (keysOf (serviceClosePhase p rems).1.services).Nodup := by
  induction rems generalizing p with
  | nil => simpa [serviceClosePhase] using h
  | cons hd rest ih =>
    obtain ⟨nm, sv⟩ := hd
    simp only [serviceClosePhase]
    exact ih _ (nodup_eraseA _ _ h)

theorem sp_count_sclose (p : Proxy) (rems : List (String × Option Unit))
    (N : String) :
    (serviceClosePhase p rems).2.count (Event.serviceClose N) =
      (keysOf rems).count N := by
  induction rems generalizing p with
  | nil => simp [serviceClosePhase]
  | cons hd rest ih =>
    obtain ⟨nm, sv⟩ := hd
    simp only [serviceClosePhase, keysOf_cons, List.count_cons]
    rw [ih]
    by_cases h3 : nm = N
    · simp [h3]
      try omega
    · have hne : ¬N = nm := fun hh => h3 hh.symm
      simp [h3, hne]

theorem sp_count_provision (p : Proxy) (rems : List (String × Option Unit))
    (id : String) :
    (serviceClosePhase p rems).2.count (Event.provision id) = 0 := by
  induction rems generalizing p with
  | nil => simp [serviceClosePhase]
  | cons hd rest ih =>
    obtain ⟨nm, sv⟩ := hd
    simp only [serviceClosePhase, List.count_cons]
    rw [ih]
    simp

theorem sp_count_dec (p : Proxy) (rems : List (String × Option Unit))
    (id : String) :
    (serviceClosePhase p rems).2.count (Event.decommission id) = 0 := by
  induction rems generalizing p with
  | nil => simp [serviceClosePhase]
  | cons hd rest ih =>
    obtain ⟨nm, sv⟩ := hd
    simp only [serviceClosePhase, List.count_cons]
    rw [ih]
    simp

theorem sp_count_create (p : Proxy) (rems : List (String × Option Unit))
    (N : String) :
    (serviceClosePhase p rems).2.count (Event.serviceCreate N) = 0 := by
  induction rems generalizing p with
  | nil => simp [serviceClosePhase]
  | cons hd rest ih =>
    obtain ⟨nm, sv⟩ := hd
    simp only [serviceClosePhase, List.count_cons]
    rw [ih]
    simp

theorem sp_no_start (p : Proxy) (rems : List (String × Option Unit))
    (l : ListenerId) :
    Event.listenerStart l ∉ (serviceClosePhase p rems).2 := by
  induction rems generalizing p with
  | nil => simp [serviceClosePhase]
  | cons hd rest ih =>
    obtain ⟨nm, sv⟩ := hd
    simp only [serviceClosePhase, List.mem_cons]
    rintro (h | h)
    · simp at h
    · exact ih _ h

/-! ### removeNotPresent lemmas -/

theorem rnp_states_isSome (p : Proxy) (new : List (String × ProxyConfig))
    (id : String) :
    (lookupA (p.removeNotPresent new).1.proxyStates id).isSome ↔
      (lookupA p.proxyStates id).isSome ∧ id ∈ keysOf new := by
  simp only [Proxy.removeNotPresent]
  rw [sp_states, dp_states_lookup]
  have hmem : id ∈ keysOf (p.removedProxies new) ↔
      id ∉ keysOf new ∧ (lookupA p.proxyStates id).isSome := by
    rw [← lookupA_isSome_iff, rpx_lookup]
    by_cases h1 : id ∈ keysOf new <;> simp [h1]
  by_cases h1 : id ∈ keysOf (p.removedProxies new)
  · rcases hmem.mp h1 with ⟨h2, h3⟩
    simp [h1, h2, h3]
  · rw [if_neg h1]
    by_cases h2 : id ∈ keysOf new
    · simp [h2]
    · have : ¬(lookupA p.proxyStates id).isSome := by
        intro h3
        exact h1 (hmem.mpr ⟨h2, h3⟩)
      simp [h2, this]

theorem rnp_services_lookup (p : Proxy) (new : List (String × ProxyConfig))
    (N : String) :
    lookupA (p.removeNotPresent new).1.services N =
      if N ∈ referencedNames new then lookupA p.services N else none := by
  simp only [Proxy.removeNotPresent]
  rw [sp_services_lookup, dp_services]
  have hrs : (decommissionPhase p (p.removedProxies new)).1.removedServices new =
      p.removedServices new := by
    simp only [Proxy.removedServices]
    rw [dp_services]
  rw [hrs]
  have hmem : N ∈ keysOf (p.removedServices new) ↔
      N ∉ referencedNames new ∧ (lookupA p.services N).isSome := by
    rw [← lookupA_isSome_iff, rsv_lookup]
    by_cases h1 : N ∈ referencedNames new <;> simp [h1]
  by_cases h1 : N ∈ keysOf (p.removedServices new)
  · rcases hmem.mp h1 with ⟨h2, h3⟩
    simp [h1, h2]
  · rw [if_neg h1]
    by_cases h2 : N ∈ referencedNames new
    · simp [h2]
    · have : ¬(lookupA p.services N).isSome := by
        intro h3
        exact h1 (hmem.mpr ⟨h2, h3⟩)
      rw [Option.not_isSome_iff_eq_none] at this
      simp [h2, this]

theorem rnp_count_dec (p : Proxy) (new : List (String × ProxyConfig))
    (id : String) (hnd : (keysOf p.proxyStates).Nodup) :
    (p.removeNotPresent new).2.count (Event.decommission id) =
      if (lookupA p.proxyStates id).isSome ∧ id ∉ keysOf new then 1 else 0 := by
  simp only [Proxy.removeNotPresent, List.count_append]
  rw [dp_count_dec, sp_count_dec, rpx_count, count_keysOf_nodup _ _ hnd]
  by_cases h1 : id ∈ keysOf new
  · simp [h1]
  · by_cases h2 : (lookupA p.proxyStates id).isSome <;> simp [h1, h2]

theorem rnp_count_sclose (p : Proxy) (new : List (String × ProxyConfig))
    (N : String) (hnd : (keysOf p.services).Nodup) :
    (p.removeNotPresent new).2.count (Event.serviceClose N) =
      if (lookupA p.services N).isSome ∧ N ∉ referencedNames new then 1
      else 0 := by
  simp only [Proxy.removeNotPresent, List.count_append]
  have hrs : (decommissionPhase p (p.removedProxies new)).1.removedServices new =
      p.removedServices new := by
    simp only [Proxy.removedServices]
    rw [dp_services]
  rw [dp_count_sclose, sp_count_sclose, hrs, rsv_count,
    count_keysOf_nodup _ _ hnd]
  by_cases h1 : N ∈ referencedNames new
  · simp [h1]
  · by_cases h2 : (lookupA p.services N).isSome <;> simp [h1, h2]

theorem rnp_count_provision (p : Proxy) (new : List (String × ProxyConfig))
    (id : String) :
    (p.removeNotPresent new).2.count (Event.provision id) = 0 := by
  simp only [Proxy.removeNotPresent, List.count_append]
  rw [dp_count_provision, sp_count_provision]

theorem rnp_count_create (p : Proxy) (new : List (String × ProxyConfig))
    (N : String) :
    (p.removeNotPresent new).2.count (Event.serviceCreate N) = 0 := by
  simp only [Proxy.removeNotPresent, List.count_append]
  rw [dp_count_create, sp_count_create]

theorem rnp_no_start (p : Proxy) (new : List (String × ProxyConfig))
    (l : ListenerId) :
    Event.listenerStart l ∉ (p.removeNotPresent new).2 := by
  simp only [Proxy.removeNotPresent, List.mem_append]
  rintro (h | h)
  · exact dp_no_start _ _ _ h
  · exact sp_no_start _ _ _ h

theorem rnp_watchers (p : Proxy) (new : List (String × ProxyConfig)) :
    (p.removeNotPresent new).1.watchers = p.watchers := by
  simp only [Proxy.removeNotPresent]
  rw [sp_watchers, dp_watchers]

theorem rnp_stopClosed (p : Proxy) (new : List (String × ProxyConfig)) :
    (p.removeNotPresent new).1.stopClosed = p.stopClosed := by
  simp only [Proxy.removeNotPresent]
  rw [sp_stopClosed, dp_stopClosed]

theorem rnp_states_nodup (p : Proxy) (new : List (String × ProxyConfig))
    (h : (keysOf p.proxyStates).Nodup) :
    (keysOf (p.removeNotPresent new).1.proxyStates).Nodup := by
  simp only [Proxy.removeNotPresent]
  rw [sp_states]
  exact dp_states_nodup _ _ h

theorem rnp_services_nodup (p : Proxy) (new : List (String × ProxyConfig))
    (h : (keysOf p.services).Nodup) :
    (keysOf (p.removeNotPresent new).1.services).Nodup := by
  simp only [Proxy.removeNotPresent]
  apply sp_services_nodup
  rw [dp_services]
  exact h

/-! ### applySnapshot lemmas -/

theorem as_count_provision (p : Proxy) (s : List (String × ProxyConfig))
    (id : String) :
    (p.applySnapshot s).2.count (Event.provision id) =
      if id ∈ keysOf s ∧ lookupA p.proxyStates id = none then 1 else 0 := by
  simp only [Proxy.applySnapshot, List.count_append]
  rw [pp_count_provision, rnp_count_provision]
  simp

theorem as_count_dec (p : Proxy) (s : List (String × ProxyConfig))
    (id : String) (hnd : (keysOf p.proxyStates).Nodup) :
    (p.applySnapshot s).2.count (Event.decommission id) =
      if (lookupA p.proxyStates id).isSome ∧ id ∉ keysOf s then 1 else 0 := by
  simp only [Proxy.applySnapshot, List.count_append]
  rw [pp_count_decommission, rnp_count_dec _ _ _ (pp_states_nodup p s hnd)]
  have h1 := pp_states_isSome p s id
  by_cases h2 : id ∈ keysOf s
  · simp [h2]
  · by_cases h3 : (lookupA p.proxyStates id).isSome
    · have : (lookupA (provisionPhase p s).1.proxyStates id).isSome :=
        h1.mpr (Or.inl h3)
      simp [h2, h3, this]
    · have : ¬(lookupA (provisionPhase p s).1.proxyStates id).isSome := by
        rw [h1]
        simp [h2, h3]
      simp [h2, h3, this]

theorem as_states_isSome (p : Proxy) (s : List (String × ProxyConfig))
    (id : String) :
    (lookupA (p.applySnapshot s).1.proxyStates id).isSome ↔ id ∈ keysOf s := by
  simp only [Proxy.applySnapshot]
  rw [rnp_states_isSome, pp_states_isSome]
  by_cases h : id ∈ keysOf s <;> simp [h]

theorem as_states_nodup (p : Proxy) (s : List (String × ProxyConfig))
    (h : (keysOf p.proxyStates).Nodup) :
    (keysOf (p.applySnapshot s).1.proxyStates).Nodup := by
  simp only [Proxy.applySnapshot]
  exact rnp_states_nodup _ _ (pp_states_nodup p s h)

theorem as_services_nodup (p : Proxy) (s : List (String × ProxyConfig))
    (h : (keysOf p.services).Nodup) :
    (keysOf (p.applySnapshot s).1.services).Nodup := by
  simp only [Proxy.applySnapshot]
  exact rnp_services_nodup _ _ (pp_services_nodup p s h)

theorem as_create_le_one (p : Proxy) (s : List (String × ProxyConfig))
    (N : String) :
    (p.applySnapshot s).2.count (Event.serviceCreate N) ≤ 1 := by
  simp only [Proxy.applySnapshot, List.count_append]
  rw [rnp_count_create]
  simpa using pp_create_le_one p s N

theorem as_create_zero_of_isSome (p : Proxy) (s : List (String × ProxyConfig))
    (N : String) (h : (lookupA p.services N).isSome) :
    (p.applySnapshot s).2.count (Event.serviceCreate N) = 0 := by
  simp only [Proxy.applySnapshot, List.count_append]
  rw [rnp_count_create, pp_create_zero_of_isSome p s N h]

theorem as_services_isSome_of_before (p : Proxy)
    (s : List (String × ProxyConfig)) (N : String)
    (h : (lookupA p.services N).isSome) :
    ((lookupA (p.applySnapshot s).1.services N).isSome ↔
      N ∈ referencedNames s) := by
  simp only [Proxy.applySnapshot]
  rw [rnp_services_lookup, pp_svc_preserve p s N h]
  by_cases h1 : N ∈ referencedNames s <;> simp [h1, h]

theorem as_count_sclose (p : Proxy) (s : List (String × ProxyConfig))
    (N : String) (hnd : (keysOf p.services).Nodup)
    (h : (lookupA p.services N).isSome) :
    (p.applySnapshot s).2.count (Event.serviceClose N) =
      if N ∈ referencedNames s then 0 else 1 := by
  simp only [Proxy.applySnapshot, List.count_append]
  rw [pp_count_sclose, rnp_count_sclose _ _ _ (pp_services_nodup p s hnd)]
  have h1 : (lookupA (provisionPhase p s).1.services N).isSome := by
    rw [pp_svc_preserve p s N h]
    exact h
  by_cases h2 : N ∈ referencedNames s <;> simp [h1, h2]

theorem as_svc_none_of_nocreate (p : Proxy) (s : List (String × ProxyConfig))
    (N : String) (h : lookupA p.services N = none)
    (hc : (p.applySnapshot s).2.count (Event.serviceCreate N) = 0) :
    lookupA (p.applySnapshot s).1.services N = none := by
  simp only [Proxy.applySnapshot, List.count_append] at hc ⊢
  rw [rnp_count_create] at hc
  have hpp : (provisionPhase p s).2.count (Event.serviceCreate N) = 0 := by
    omega
  have h1 : ¬(lookupA (provisionPhase p s).1.services N).isSome := by
    rw [pp_svc_isSome_iff]
    simp [h, hpp]
  rw [Option.not_isSome_iff_eq_none] at h1
  rw [rnp_services_lookup, h1]
  simp

theorem as_svc_isSome_of_create (p : Proxy) (s : List (String × ProxyConfig))
    (N : String) (hc : 0 < (p.applySnapshot s).2.count (Event.serviceCreate N))
    (href : N ∈ referencedNames s) :
    (lookupA (p.applySnapshot s).1.services N).isSome := by
  simp only [Proxy.applySnapshot, List.count_append] at hc ⊢
  rw [rnp_count_create] at hc
  have h1 : (lookupA (provisionPhase p s).1.services N).isSome := by
    rw [pp_svc_isSome_iff]
    right
    omega
  rw [rnp_services_lookup, if_pos href]
  exact h1

theorem as_watchers (p : Proxy) (s : List (String × ProxyConfig)) :
    (p.applySnapshot s).1.watchers = (provisionPhase p s).1.watchers := by
  simp only [Proxy.applySnapshot]
  rw [rnp_watchers]

theorem as_watchers_mono (p : Proxy) (s : List (String × ProxyConfig))
    (l : ListenerId) (h : l ∈ p.watchers) :
    l ∈ (p.applySnapshot s).1.watchers := by
  rw [as_watchers]
  exact pp_watchers_mono p s l h

theorem as_start_watch (p : Proxy) (s : List (String × ProxyConfig))
    (l : ListenerId) (h : Event.listenerStart l ∈ (p.applySnapshot s).2) :
    l ∈ (p.applySnapshot s).1.watchers := by
  rw [as_watchers]
  simp only [Proxy.applySnapshot, List.mem_append] at h
  rcases h with h | h
  · exact pp_start_watch p s l h
  · exact absurd h (rnp_no_start _ _ _)

theorem as_stopClosed (p : Proxy) (s : List (String × ProxyConfig)) :
    (p.applySnapshot s).1.stopClosed = p.stopClosed := by
  simp only [Proxy.applySnapshot]
  rw [rnp_stopClosed, pp_stopClosed]

/-! ### runBgPublic and Close lemmas -/

theorem rbg_stopClosed (p : Proxy) (id : String) :
    (p.runBgPublic id).1.stopClosed = p.stopClosed := by
  simp only [Proxy.runBgPublic, Proxy.startListener]
  cases hm : lookupA p.proxyStates id <;> simp

theorem rbg_services (p : Proxy) (id : String) :
    (p.runBgPublic id).1.services = p.services := by
  simp only [Proxy.runBgPublic, Proxy.startListener]
  cases hm : lookupA p.proxyStates id <;> simp

theorem rbg_watchers (p : Proxy) (id : String) :
    (p.runBgPublic id).1.watchers =
      p.watchers ++ [ListenerId.publicL id] := by
  simp only [Proxy.runBgPublic, Proxy.startListener]
  cases hm : lookupA p.proxyStates id <;> simp

theorem rbg_events_start (p : Proxy) (id : String) (l : ListenerId)
    (h : Event.listenerStart l ∈ (p.runBgPublic id).2) :
    l = ListenerId.publicL id := by
  simp only [Proxy.runBgPublic, Proxy.startListener] at h
  cases hm : lookupA p.proxyStates id <;> rw [hm] at h <;> simp at h <;>
    exact h

theorem rbg_no_errlog (p : Proxy) (id : String) (n : String) :
    Event.startListenerErrLog n ∉ (p.runBgPublic id).2 := by
  simp only [Proxy.runBgPublic, Proxy.startListener]
  cases hm : lookupA p.proxyStates id <;> simp

theorem rbg_states_isSome (p : Proxy) (id id2 : String) :
    (lookupA (p.runBgPublic id).1.proxyStates id2).isSome =
      (lookupA p.proxyStates id2).isSome := by
  simp only [Proxy.runBgPublic, Proxy.startListener]
  cases hm : lookupA p.proxyStates id with
  | none => simp
  | some st =>
    simp only
    rw [lookupA_insertOver]
    by_cases h : id = id2
    · subst h; simp [hm]
    · simp [h]

theorem rbg_lookup_ne (p : Proxy) (id id2 : String) (h : ¬id = id2) :
    lookupA (p.runBgPublic id).1.proxyStates id2 =
      lookupA p.proxyStates id2 := by
  simp only [Proxy.runBgPublic, Proxy.startListener]
  cases hm : lookupA p.proxyStates id with
  | none => simp
  | some st =>
    simp only
    rw [lookupA_insertOver, if_neg h]

theorem close_stopClosed (p : Proxy) : (p.Close).1.stopClosed = true := rfl

theorem close_watchers (p : Proxy) : (p.Close).1.watchers = p.watchers := rfl

theorem close_no_start (p : Proxy) (l : ListenerId) :
    Event.listenerStart l ∉ (p.Close).2 := by
  simp only [Proxy.Close, List.mem_append]
  rintro (h | h)
  · by_cases hs : p.stopClosed <;> simp [hs] at h
  · simp only [List.mem_map] at h
    rcases h with ⟨kv, _, heq⟩
    simp at heq

theorem close_no_fault_of_open (p : Proxy) (msg : String)
    (h : p.stopClosed = false) : Event.fault msg ∉ (p.Close).2 := by
  simp only [Proxy.Close, h, List.mem_append]
  rintro (hm | hm)
  · simp at hm
  · simp only [List.mem_map] at hm
    rcases hm with ⟨kv, _, heq⟩
    simp at heq

/-! ### Execution lemmas -/

theorem rawStep_stop_mono (p : Proxy) (a : Action) (h : p.stopClosed = true) :
    (rawStep p a).1.stopClosed = true := by
  cases a with
  | snapshot cfg => rw [rawStep, as_stopClosed]; exact h
  | runBg id =>
    by_cases hmem : id ∈ p.pending
    · simp only [rawStep, hmem, if_true]
      rw [rbg_stopClosed]
      exact h
    · simp only [rawStep, hmem, if_false]
      exact h
  | stop => exact close_stopClosed p

theorem rawStep_watchers_mono (p : Proxy) (a : Action) (l : ListenerId)
    (h : l ∈ p.watchers) : l ∈ (rawStep p a).1.watchers := by
  cases a with
  | snapshot cfg => exact as_watchers_mono p cfg l h
  | runBg id =>
    by_cases hmem : id ∈ p.pending
    · simp only [rawStep, hmem, if_true]
      rw [rbg_watchers]
      exact List.mem_append.mpr (Or.inl h)
    · simp only [rawStep, hmem, if_false]
      exact h
  | stop => rw [rawStep, close_watchers]; exact h

theorem rawStep_start_watch (p : Proxy) (a : Action) (l : ListenerId)
    (h : Event.listenerStart l ∈ (rawStep p a).2) :
    l ∈ (rawStep p a).1.watchers := by
  cases a with
  | snapshot cfg => exact as_start_watch p cfg l h
  | runBg id =>
    by_cases hmem : id ∈ p.pending
    · simp only [rawStep, hmem, if_true] at h ⊢
      rw [rbg_watchers]
      have := rbg_events_start _ id l h
      subst this
      simp
    · simp only [rawStep, hmem, if_false] at h
      simp at h
  | stop => exact absurd h (close_no_start p l)

theorem step_stop_mono (p : Proxy) (a : Action) (h : p.stopClosed = true) :
    (step p a).1.stopClosed = true := by
  have hm := rawStep_stop_mono p a h
  simp only [step]
  by_cases hb : (rawStep p a).1.stopClosed = true
  · simp [hb]
  · exact absurd hm hb

theorem step_stop_action (p : Proxy) :
    (step p Action.stop).1.stopClosed = true := by
  have hm : (rawStep p Action.stop).1.stopClosed = true := close_stopClosed p
  simp only [step]
  simp [hm]

theorem step_inv (p : Proxy) (a : Action) (evs0 : List Event)
    (h1 : ∀ l, Event.listenerStart l ∈ evs0 →
      Event.listenerClose l ∈ evs0 ∨ l ∈ p.watchers) :
    (∀ l, Event.listenerStart l ∈ evs0 ++ (step p a).2 →
      Event.listenerClose l ∈ evs0 ++ (step p a).2 ∨ l ∈ (step p a).1.watchers)
  ∧ ((step p a).1.stopClosed = true → (step p a).1.watchers = []) := by
  simp only [step]
  by_cases hb : (rawStep p a).1.stopClosed = true
  · simp only [hb, if_true]
    constructor
    · intro l hl
      rcases List.mem_append.mp hl with hl | hl
      · rcases h1 l hl with hc | hw
        · exact Or.inl (List.mem_append.mpr (Or.inl hc))
        · left
          have hw2 : l ∈ (rawStep p a).1.watchers :=
            rawStep_watchers_mono p a l hw
          exact List.mem_append.mpr (Or.inr (List.mem_append.mpr
            (Or.inr (List.mem_map.mpr ⟨l, hw2, rfl⟩))))
      · rcases List.mem_append.mp hl with hl2 | hl2
        · left
          have hw2 : l ∈ (rawStep p a).1.watchers :=
            rawStep_start_watch p a l hl2
          exact List.mem_append.mpr (Or.inr (List.mem_append.mpr
            (Or.inr (List.mem_map.mpr ⟨l, hw2, rfl⟩))))
        · exfalso
          rcases List.mem_map.mp hl2 with ⟨l2, _, heq⟩
          simp at heq
    · intro _
      trivial
  · simp only [hb, if_false]
    constructor
    · intro l hl
      rcases List.mem_append.mp hl with hl | hl
      · rcases h1 l hl with hc | hw
        · exact Or.inl (List.mem_append.mpr (Or.inl hc))
        · exact Or.inr (rawStep_watchers_mono p a l hw)
      · exact Or.inr (rawStep_start_watch p a l hl)
    · intro hcontra
      exact absurd hcontra hb

theorem exec_inv (tr : List Action) (p : Proxy) (evs0 : List Event)
    (h1 : ∀ l, Event.listenerStart l ∈ evs0 →
      Event.listenerClose l ∈ evs0 ∨ l ∈ p.watchers)
    (h2 : p.stopClosed = true → p.watchers = []) :
    (∀ l, Event.listenerStart l ∈ evs0 ++ (exec p tr).2 →
      Event.listenerClose l ∈ evs0 ++ (exec p tr).2 ∨ l ∈ (exec p tr).1.watchers)
  ∧ ((exec p tr).1.stopClosed = true → (exec p tr).1.watchers = []) := by
  induction tr generalizing p evs0 with
  | nil =>
    constructor
    · intro l hl
      simp only [exec, List.append_nil] at hl ⊢
      rcases h1 l hl with hc | hw
      · exact Or.inl hc
      · exact Or.inr hw
    · exact h2
  | cons a rest ih =>
    have hstep := step_inv p a evs0 h1
    have hrec := ih (step p a).1 (evs0 ++ (step p a).2) hstep.1 hstep.2
    simp only [exec]
    constructor
    · intro l hl
      rw [← List.append_assoc] at hl ⊢
      rcases hrec.1 l hl with hc | hw
      · exact Or.inl hc
      · exact Or.inr hw
    · exact hrec.2

theorem exec_stop_mono (tr : List Action) (p : Proxy)
    (h : p.stopClosed = true) : (exec p tr).1.stopClosed = true := by
  induction tr generalizing p with
  | nil => exact h
  | cons a rest ih =>
    simp only [exec]
    exact ih _ (step_stop_mono p a h)

theorem exec_stopClosed_of_stop (tr : List Action) (p : Proxy)
    (h : Action.stop ∈ tr) : (exec p tr).1.stopClosed = true := by
  induction tr generalizing p with
  | nil => simp at h
  | cons a rest ih =>
    simp only [exec]
    rcases List.mem_cons.mp h with heq | hmem
    · subst heq
      exact exec_stop_mono rest _ (step_stop_action p)
    · exact ih _ hmem

theorem serve_returns_iff (inputs : List ServeInput) (p : Proxy) :
    (p.Serve inputs).2.2 = true ↔ ServeInput.stopSignal ∈ inputs := by
  induction inputs generalizing p with
  | nil => simp [Proxy.Serve]
  | cons a rest ih =>
    cases a with
    | config cfg => simp [Proxy.Serve, ih]
    | stopSignal => simp [Proxy.Serve]

theorem aaf_services_nodup (snaps : List (List (String × ProxyConfig)))
    (p : Proxy) (h : (keysOf p.services).Nodup) :
    (keysOf (applyAllFrom p snaps).1.services).Nodup := by
  induction snaps generalizing p with
  | nil => simpa [applyAllFrom] using h
  | cons s rest ih =>
    simp only [applyAllFrom]
    exact ih _ (as_services_nodup p s h)

theorem c4_aux (snaps : List (List (String × ProxyConfig))) (p : Proxy)
    (N : String) (href : ∀ s ∈ snaps, N ∈ referencedNames s) :
    (applyAllFrom p snaps).2.count (Event.serviceCreate N) ≤
      if (lookupA p.services N).isSome then 0 else 1 := by
  induction snaps generalizing p with
  | nil => simp [applyAllFrom]
  | cons s rest ih =>
    have hrefs : N ∈ referencedNames s := href s (List.mem_cons_self s rest)
    have hrest : ∀ s2 ∈ rest, N ∈ referencedNames s2 :=
      fun s2 hs => href s2 (List.mem_cons_of_mem s hs)
    simp only [applyAllFrom, List.count_append]
    by_cases hp : (lookupA p.services N).isSome
    · have hc1 : (p.applySnapshot s).2.count (Event.serviceCreate N) = 0 :=
        as_create_zero_of_isSome p s N hp
      have hafter : (lookupA (p.applySnapshot s).1.services N).isSome :=
        (as_services_isSome_of_before p s N hp).mpr hrefs
      have h2 := ih (p.applySnapshot s).1 hrest
      rw [if_pos hafter] at h2
      rw [hc1, if_pos hp]
      omega
    · have hpn : lookupA p.services N = none :=
        Option.not_isSome_iff_eq_none.mp hp
      rw [if_neg hp]
      by_cases hc : (p.applySnapshot s).2.count (Event.serviceCreate N) = 0
      · have hafter : lookupA (p.applySnapshot s).1.services N = none :=
          as_svc_none_of_nocreate p s N hpn hc
        have h2 := ih (p.applySnapshot s).1 hrest
        rw [hafter] at h2
        simp only [Option.isSome_none, Bool.false_eq_true, if_false] at h2
        omega
      · have hcpos : 0 < (p.applySnapshot s).2.count (Event.serviceCreate N) :=
          Nat.pos_of_ne_zero hc
        have hafter : (lookupA (p.applySnapshot s).1.services N).isSome :=
          as_svc_isSome_of_create p s N hcpos hrefs
        have h2 := ih (p.applySnapshot s).1 hrest
        rw [if_pos hafter] at h2
        have hle := as_create_le_one p s N
        omega

/-! ### Claim theorems -/

/-- Claim C1: across two snapshots applied in sequence, an instance
identifier appearing only in the second snapshot is provisioned exactly
once, an identifier appearing only in the first is decommissioned exactly
once, an identifier in both triggers neither, and provisioning an
identifier that already has a runtime state is a no-op leaving the whole
proxy state unchanged. -/
theorem c1_snapshot_diff (s1 s2 : List (String × ProxyConfig)) (id : String)
    (p : Proxy) (cfg : ProxyConfig) :
    ((Proxy.applySnapshot (Proxy.applySnapshot initialProxy s1).1 s2).2.count
        (Event.provision id) =
      if id ∈ keysOf s2 ∧ id ∉ keysOf s1 then 1 else 0)
  ∧ ((Proxy.applySnapshot (Proxy.applySnapshot initialProxy s1).1 s2).2.count
        (Event.decommission id) =
      if id ∈ keysOf s1 ∧ id ∉ keysOf s2 then 1 else 0)
  ∧ ((lookupA p.proxyStates id).isSome → p.runServiceProxy id cfg = (p, [])) := by
  have hnd0 : (keysOf initialProxy.proxyStates).Nodup := by
    simp [initialProxy]
  have hnd1 := as_states_nodup initialProxy s1 hnd0
  have hiff := as_states_isSome initialProxy s1 id
  have hnone : lookupA (Proxy.applySnapshot initialProxy s1).1.proxyStates id =
      none ↔ id ∉ keysOf s1 := by
    rw [← Option.not_isSome_iff_eq_none]
    exact not_congr hiff
  refine ⟨?_, ?_, fun h => rsp_skip p id cfg h⟩
  · rw [as_count_provision]
    by_cases h2 : id ∈ keysOf s2 <;> by_cases h1 : id ∈ keysOf s1 <;>
      simp [hnone, h1, h2]
  · rw [as_count_dec _ _ _ hnd1]
    by_cases h2 : id ∈ keysOf s2 <;> by_cases h1 : id ∈ keysOf s1 <;>
      simp [hiff, h1, h2]

/-- Witness for C1 on concrete snapshots: instance c (only in the second
snapshot) is provisioned once, instance a (only in the first) is
decommissioned once, instance b (in both) triggers neither, and
re-provisioning the already provisioned instance a is a no-op. -/
theorem c1_snapshot_diff_witness :
    ((Proxy.applySnapshot (Proxy.applySnapshot initialProxy
        [("a", exCfg2), ("b", exCfg2)]).1 [("b", exCfg2), ("c", exCfg2)]).2.count
        (Event.provision "c") = 1)
  ∧ ((Proxy.applySnapshot (Proxy.applySnapshot initialProxy
        [("a", exCfg2), ("b", exCfg2)]).1 [("b", exCfg2), ("c", exCfg2)]).2.count
        (Event.decommission "a") = 1)
  ∧ ((Proxy.applySnapshot (Proxy.applySnapshot initialProxy
        [("a", exCfg2), ("b", exCfg2)]).1 [("b", exCfg2), ("c", exCfg2)]).2.count
        (Event.provision "b") = 0)
  ∧ Proxy.runServiceProxy exProvisioned "a" exCfg2 = (exProvisioned, []) := by
  refine ⟨?_, ?_, ?_, (c1_snapshot_diff [("a", exCfg2), ("b", exCfg2)]
    [("b", exCfg2), ("c", exCfg2)] "a" exProvisioned exCfg2).2.2 (by decide)⟩
  · rw [(c1_snapshot_diff [("a", exCfg2), ("b", exCfg2)]
      [("b", exCfg2), ("c", exCfg2)] "c" exProvisioned exCfg2).1]
    decide
  · rw [(c1_snapshot_diff [("a", exCfg2), ("b", exCfg2)]
      [("b", exCfg2), ("c", exCfg2)] "a" exProvisioned exCfg2).2.1]
    decide
  · rw [(c1_snapshot_diff [("a", exCfg2), ("b", exCfg2)]
      [("b", exCfg2), ("c", exCfg2)] "b" exProvisioned exCfg2).1]
    decide

/-- Counterexample to C2 as stated: in the execution that provisions
instance a, lets its public listener start, decommissions it, then stops,
the public listener of a is started and stop is invoked, yet close is
called on that listener twice (once by the synchronous decommission path
and once by its stop-watcher), not exactly once. -/
theorem c2_close_called_twice :
    Action.stop ∈ exTrace
  ∧ Event.listenerStart (ListenerId.publicL "a") ∈ (exec initialProxy exTrace).2
  ∧ (exec initialProxy exTrace).2.count
      (Event.listenerClose (ListenerId.publicL "a")) = 2 :=
  ⟨by decide, by decide, by decide⟩

/-- Claim C2, amended: over any execution containing a stop action, every
listener that was ever started is eventually closed at least once — the
stop-watcher registered at start guarantees the close — but a listener
decommissioned before stop is closed twice, not exactly once. -/
theorem c2_every_started_listener_closed (tr : List Action) (l : ListenerId)
    (hstop : Action.stop ∈ tr)
    (hstart : Event.listenerStart l ∈ (exec initialProxy tr).2) :
    Event.listenerClose l ∈ (exec initialProxy tr).2 := by
  have hinv := exec_inv tr initialProxy []
    (by intro l2 h; simp at h)
    (fun _ => rfl)
  rcases hinv.1 l (by simpa using hstart) with hc | hw
  · simpa using hc
  · have hclosed := exec_stopClosed_of_stop tr initialProxy hstop
    have hempty := hinv.2 hclosed
    rw [hempty] at hw
    simp at hw

/-- Witness for the amended C2: in the concrete execution, the upstream
listener of instance a is closed after stop. -/
theorem c2_every_started_listener_closed_witness :
    Event.listenerClose (ListenerId.upstreamL "a" "u1") ∈
      (exec initialProxy exTrace).2 :=
  c2_every_started_listener_closed exTrace (ListenerId.upstreamL "a" "u1")
    (by decide) (by decide)

/-- Claim C3: for a service name with a registered handle, applying a
snapshot closes the handle exactly once when no instance of the snapshot
references the name and not at all when one does (provisioning precedes
decommissioning, so a handle referenced by a surviving instance is never
closed), and the handle remains registered exactly when it is still
referenced. -/
theorem c3_service_close_iff_unreferenced (p : Proxy)
    (s : List (String × ProxyConfig)) (N : String)
    (hnd : (keysOf p.services).Nodup) (h : (lookupA p.services N).isSome) :
    ((p.applySnapshot s).2.count (Event.serviceClose N) =
      if N ∈ referencedNames s then 0 else 1)
  ∧ ((lookupA (p.applySnapshot s).1.services N).isSome ↔
      N ∈ referencedNames s) :=
  ⟨as_count_sclose p s N hnd h, as_services_isSome_of_before p s N h⟩

/-- Witness for C3: the handle for svcX survives a snapshot still
referencing svcX without a serviceClose, and is closed exactly once by an
empty snapshot. -/
theorem c3_service_close_iff_unreferenced_witness :
    (((Proxy.applySnapshot exProvisioned [("b", exCfg2)]).2.count
        (Event.serviceClose "svcX") =
      if "svcX" ∈ referencedNames [("b", exCfg2)] then 0 else 1)
  ∧ ((lookupA (Proxy.applySnapshot exProvisioned
        [("b", exCfg2)]).1.services "svcX").isSome ↔
      "svcX" ∈ referencedNames [("b", exCfg2)]))
  ∧ (((Proxy.applySnapshot exProvisioned []).2.count
        (Event.serviceClose "svcX") =
      if "svcX" ∈ referencedNames ([] : List (String × ProxyConfig)) then 0
      else 1)) :=
  ⟨c3_service_close_iff_unreferenced exProvisioned [("b", exCfg2)] "svcX"
      (by decide) (by decide),
    (c3_service_close_iff_unreferenced exProvisioned [] "svcX"
      (by decide) (by decide)).1⟩

/-- Claim C4: the service-handle registry never holds two entries for one
name, and across any sequence of snapshots that all keep referencing a
name N, the handle for N is created at most once. -/
theorem c4_service_create_at_most_once
    (snaps : List (List (String × ProxyConfig))) (N : String) :
    (keysOf (applyAll snaps).1.services).Nodup
  ∧ ((∀ s ∈ snaps, N ∈ referencedNames s) →
      (applyAll snaps).2.count (Event.serviceCreate N) ≤ 1) := by
  constructor
  · exact aaf_services_nodup snaps initialProxy (by simp [initialProxy])
  · intro href
    have h := c4_aux snaps initialProxy N href
    simpa [applyAll, initialProxy, lookupA] using h

/-- Witness for C4: two snapshots both referencing svcX through different
instances create the svcX handle at most once. -/
theorem c4_service_create_at_most_once_witness :
    (keysOf (applyAll [[("a", exCfg)], [("b", exCfg)]]).1.services).Nodup
  ∧ (applyAll [[("a", exCfg)], [("b", exCfg)]]).2.count
      (Event.serviceCreate "svcX") ≤ 1 := by
  have h := c4_service_create_at_most_once [[("a", exCfg)], [("b", exCfg)]]
    "svcX"
  exact ⟨h.1, h.2 (by decide)⟩

/-- Counterexample to C5 as stated: invoking Close a second time reaches
close on an already closed channel — a runtime fault (panic in Go), not a
guarded no-op. -/
theorem c5_double_close_fault :
    Event.fault "close of closed channel" ∈
      (Proxy.Close (Proxy.Close initialProxy).1).2 := by
  decide

/-- Claim C5, amended: the stop channel close is unguarded, so only the
first Close call is fault-free (and does close the stop channel); the code
documents that Close must be called exactly once, and a second call faults. -/
theorem c5_first_close_only (p : Proxy) (h : p.stopClosed = false) :
    (∀ msg, Event.fault msg ∉ (p.Close).2) ∧ (p.Close).1.stopClosed = true :=
  ⟨fun msg => close_no_fault_of_open p msg h, close_stopClosed p⟩

/-- Witness for the amended C5: the first Close on a fresh proxy is
fault-free and closes the stop channel. -/
theorem c5_first_close_only_witness :
    Event.fault "close of closed channel" ∉ (Proxy.Close initialProxy).2
  ∧ (Proxy.Close initialProxy).1.stopClosed = true :=
  ⟨(c5_first_close_only initialProxy (by decide)).1 "close of closed channel",
    (c5_first_close_only initialProxy (by decide)).2⟩

/-- Claim C6 (code bug): on a snapshot whose instance a has a failing
service-handle creation, the code logs the creation error (intending to
continue degraded, as the spec requires) and stores the nil handle, but the
one-time readiness/TLS block then dereferences that nil handle — a runtime
fault that is fatal to the whole process, so provisioning does not continue
and run() does not survive the pass. -/
theorem c6_nil_handle_dereference_fault :
    Event.serviceCreateFailed "svcY" ∈
      (provisionPhase initialProxy [("a", exCfgFail), ("b", exCfg2)]).2
  ∧ Event.fault "nil service dereference" ∈
      (provisionPhase initialProxy [("a", exCfgFail), ("b", exCfg2)]).2
  ∧ lookupA (Proxy.runServiceProxy initialProxy "a" exCfgFail).1.services
      "svcY" = some none :=
  ⟨by decide, by decide, by decide⟩

/-- Claim C7 (code bug): decommissioning an instance whose public listener
was never recorded calls Close through the nil listener — a runtime fault —
instead of skipping the close; the runtime state of the decommissioned
instance indeed holds no recorded listener when the background start has
not run. -/
theorem c7_nil_listener_close_fault :
    Event.fault "nil listener close" ∈
      (Proxy.applySnapshot
        (Proxy.applySnapshot initialProxy [("a", exCfg)]).1 []).2
  ∧ (lookupA (Proxy.applySnapshot initialProxy
      [("a", exCfg)]).1.proxyStates "a").map proxyState.listener =
      some none := by
  exact ⟨by decide, by decide⟩

/-- Counterexample to C8 as stated: running the public-listener background
task of a provisioned instance mutates the shared Proxy Runtime State map
(it writes the started listener back into the instance's record). -/
theorem c8_bg_task_writes_state :
    (Proxy.runBgPublic exProvisioned "a").1.proxyStates ≠
      exProvisioned.proxyStates := by
  decide

/-- Claim C8, amended: the background public-listener task never touches
the Service Handle Registry, never adds or removes Proxy Runtime State
entries, and never modifies another instance's record — but it does write
the started listener into its own instance's record in the shared map. -/
theorem c8_bg_task_limited_writes (p : Proxy) (id id2 : String) :
    (Proxy.runBgPublic p id).1.services = p.services
  ∧ ((lookupA (Proxy.runBgPublic p id).1.proxyStates id2).isSome ↔
      (lookupA p.proxyStates id2).isSome)
  ∧ (¬id = id2 → lookupA (Proxy.runBgPublic p id).1.proxyStates id2 =
      lookupA p.proxyStates id2) :=
  ⟨rbg_services p id, by rw [rbg_states_isSome],
    fun h => rbg_lookup_ne p id id2 h⟩

/-- Witness for the amended C8 at a concrete state. -/
theorem c8_bg_task_limited_writes_witness :
    (Proxy.runBgPublic exProvisioned "a").1.services = exProvisioned.services
  ∧ ((lookupA (Proxy.runBgPublic exProvisioned "a").1.proxyStates "b").isSome ↔
      (lookupA exProvisioned.proxyStates "b").isSome)
  ∧ lookupA (Proxy.runBgPublic exProvisioned "a").1.proxyStates "b" =
      lookupA exProvisioned.proxyStates "b" := by
  have h := c8_bg_task_limited_writes exProvisioned "a" "b"
  exact ⟨h.1, h.2.1, h.2.2 (by decide)⟩

/-- Claim C9: startListener always returns nil, so the error-logging
branches that test its return value in runServiceProxy and in the
public-listener goroutine can never log. -/
theorem c9_startListener_returns_none (p : Proxy) (name : String)
    (l : ListenerId) (id : String) (cfg : ProxyConfig) (n : String) :
    (p.startListener name l).2.2 = none
  ∧ Event.startListenerErrLog n ∉ (p.runServiceProxy id cfg).2
  ∧ Event.startListenerErrLog n ∉ (p.runBgPublic id).2 :=
  ⟨rfl, rsp_no_errlog p id cfg n, rbg_no_errlog p id n⟩

/-- Witness for C9 at a concrete listener, instance and config. -/
theorem c9_startListener_returns_none_witness :
    (Proxy.startListener initialProxy "public listener"
      (ListenerId.publicL "a")).2.2 = none
  ∧ Event.startListenerErrLog "u1" ∉
      (Proxy.runServiceProxy initialProxy "a" exCfg).2
  ∧ Event.startListenerErrLog "u1" ∉ (Proxy.runBgPublic initialProxy "a").2 :=
  c9_startListener_returns_none initialProxy "public listener"
    (ListenerId.publicL "a") "a" exCfg "u1"

/-- Claim C10: when service-handle creation fails during provisioning, the
nil handle is stored in the registry under the service name, and any later
provisioning that finds an entry for its service name — nil or not — never
attempts creation again. -/
theorem c10_nil_handle_cached (p : Proxy) (id : String) (cfg : ProxyConfig)
    (hnew : lookupA p.proxyStates id = none)
    (hfail : cfg.serviceCreateFails = true)
    (habs : lookupA p.services cfg.proxiedServiceName = none)
    (p2 : Proxy) (id2 : String) (cfg2 : ProxyConfig)
    (hfound : (lookupA p2.services cfg2.proxiedServiceName).isSome) :
    lookupA (p.runServiceProxy id cfg).1.services cfg.proxiedServiceName =
      some none
  ∧ (p2.runServiceProxy id2 cfg2).2.count
      (Event.serviceCreate cfg2.proxiedServiceName) = 0 := by
  constructor
  · rw [rsp_services_store p id cfg hnew habs, hfail]
    simp
  · rw [rsp_count_create]
    have hnn : ¬lookupA p2.services cfg2.proxiedServiceName = none := by
      rw [← Option.not_isSome_iff_eq_none, not_not]
      exact hfound
    simp [hnn]

/-- Witness for C10: provisioning a with the failing config stores a nil
handle under svcY, and provisioning b afterwards performs no creation. -/
theorem c10_nil_handle_cached_witness :
    lookupA (Proxy.runServiceProxy initialProxy "a"
      exCfgFail).1.services exCfgFail.proxiedServiceName = some none
  ∧ (Proxy.runServiceProxy (Proxy.runServiceProxy initialProxy "a"
      exCfgFail).1 "b" exCfgFail).2.count
      (Event.serviceCreate exCfgFail.proxiedServiceName) = 0 :=
  c10_nil_handle_cached initialProxy "a" exCfgFail (by decide) (by decide)
    (by decide) (Proxy.runServiceProxy initialProxy "a" exCfgFail).1 "b"
    exCfgFail (by decide)

end Conoxy
